import Mathlib

/-!
# Disc mesh generator (`src/disc.cpp`)

A shallow embedding of `Disc::Disc`, `Disc::PreGLInitialize` and
`Disc::RecomputeNormals`.

* C++ `float` is an arbitrary carrier `F` with the operations of the class
  `Scalar`; no law is assumed of them unless a theorem states it as a
  hypothesis, so the structural results hold for every interpretation of the
  arithmetic.
* `std::vector` is `List`; `push_back` appends at the end; a subscript outside
  the vector makes the routine return `none`.
* `int` is a mathematical integer; the one place where the 32-bit range
  matters is `abs(slices)` in the constructor (`abs_int`): the magnitude of
  `INT_MIN` is not an `int`. A `size_t` difference wraps around below zero
  (`usub`); the loop counters stay below the sizes of the vectors.
* GLM is the version the source is written for: `vec3()` is the zero vector,
  `mat4()` the identity, and `rotate` takes its angle in radians.
* Two instances of the scalars are used: the rationals, on which the model is
  evaluated at concrete inputs, and the real numbers, for the statements about
  exact real arithmetic.
-/

set_option autoImplicit false
set_option linter.unusedSectionVars false

/-! ## Scalars -/

/-- Operations of the C++ `float` type that the program uses. `ofRat` is the
conversion of a literal or of an integer, `eq` is `operator==` and `lt` is
`operator<`. -/
class Scalar (F : Type) extends Add F, Sub F, Mul F, Div F, Neg F where
  ofRat : ℚ → F
  abs : F → F
  sqrt : F → F
  sin : F → F
  cos : F → F
  pi : F
  eq : F → F → Bool
  lt : F → F → Bool

namespace Scalar

variable {F : Type} [Scalar F]

/-- Template `min<float>(a, b)`: `(b < a) ? b : a`. -/
def min (a b : F) : F := if Scalar.lt b a then b else a

end Scalar

/-! ## The part of GLM the program uses -/

namespace glm

/-- A `glm::vec2`. -/
structure vec2 (F : Type) where
  x : F
  y : F
deriving DecidableEq, Repr

/-- A `glm::vec3`. -/
structure vec3 (F : Type) where
  x : F
  y : F
  z : F
deriving DecidableEq, Repr

/-- A `glm::vec4`. -/
structure vec4 (F : Type) where
  x : F
  y : F
  z : F
  w : F
deriving DecidableEq, Repr

/-- A `glm::mat4`, stored by columns as in GLM. -/
structure mat4 (F : Type) where
  c0 : vec4 F
  c1 : vec4 F
  c2 : vec4 F
  c3 : vec4 F
deriving DecidableEq, Repr

variable {F : Type} [Scalar F]

/-- Literal `0.0f`. -/
def f0 : F := Scalar.ofRat 0

/-- Literal `1.0f`. -/
def f1 : F := Scalar.ofRat 1

/-- Default constructor `vec3()`: all components zero. -/
def vec3.zero : vec3 F := ⟨f0, f0, f0⟩

/-- Default constructor `mat4()`: the identity matrix. -/
def mat4.identity : mat4 F :=
  ⟨⟨f1, f0, f0, f0⟩, ⟨f0, f1, f0, f0⟩, ⟨f0, f0, f1, f0⟩, ⟨f0, f0, f0, f1⟩⟩

/-- Conversion `vec3(vec4)`: drops `w`. -/
def vec4.toVec3 (v : vec4 F) : vec3 F := ⟨v.x, v.y, v.z⟩

/-- Conversion `vec2(vec3)`: drops `z`. -/
def vec3.toVec2 (v : vec3 F) : vec2 F := ⟨v.x, v.y⟩

/-- Conversion `vec2(vec4)`: drops `z` and `w`. -/
def vec4.toVec2 (v : vec4 F) : vec2 F := ⟨v.x, v.y⟩

/-- Componentwise `vec2 + vec2`. -/
def vec2.add (a b : vec2 F) : vec2 F := ⟨a.x + b.x, a.y + b.y⟩

/-- Division `vec2 / float`. -/
def vec2.divS (a : vec2 F) (s : F) : vec2 F := ⟨a.x / s, a.y / s⟩

/-- Componentwise `vec3 + vec3`. -/
def vec3.add (a b : vec3 F) : vec3 F := ⟨a.x + b.x, a.y + b.y, a.z + b.z⟩

/-- Componentwise `vec3 - vec3`. -/
def vec3.sub (a b : vec3 F) : vec3 F := ⟨a.x - b.x, a.y - b.y, a.z - b.z⟩

/-- Unary minus on a `vec3`. -/
def vec3.neg (a : vec3 F) : vec3 F := ⟨-a.x, -a.y, -a.z⟩

/-- Division `vec3 / float`. -/
def vec3.divS (a : vec3 F) (s : F) : vec3 F := ⟨a.x / s, a.y / s, a.z / s⟩

/-- Product `vec3 * float`. -/
def vec3.mulS (a : vec3 F) (s : F) : vec3 F := ⟨a.x * s, a.y * s, a.z * s⟩

/-- Product `vec4 * float`. -/
def vec4.mulS (a : vec4 F) (s : F) : vec4 F := ⟨a.x * s, a.y * s, a.z * s, a.w * s⟩

/-- Componentwise `vec4 + vec4`. -/
def vec4.add (a b : vec4 F) : vec4 F := ⟨a.x + b.x, a.y + b.y, a.z + b.z, a.w + b.w⟩

/-- Scalar product `glm::dot` of two `vec3`. -/
def dot (a b : vec3 F) : F := a.x * b.x + a.y * b.y + a.z * b.z

/-- Vector product `glm::cross`. -/
def cross (a b : vec3 F) : vec3 F :=
  ⟨a.y * b.z - b.y * a.z, a.z * b.x - b.z * a.x, a.x * b.y - b.x * a.y⟩

/-- Function `glm::normalize`: `v * inversesqrt(dot(v, v))`. -/
def normalize (v : vec3 F) : vec3 F := v.mulS (f1 / Scalar.sqrt (dot v v))

/-- Product `mat4 * vec4`. -/
def mat4.mulVec (m : mat4 F) (v : vec4 F) : vec4 F :=
  ((m.c0.mulS v.x).add (m.c1.mulS v.y)).add ((m.c2.mulS v.z).add (m.c3.mulS v.w))

/-- Function `glm::rotate(m, angle, axis)` with the angle in radians: `m`
times the rotation by `angle` about `axis`. -/
def rotate (m : mat4 F) (angle : F) (v : vec3 F) : mat4 F :=
  let c : F := Scalar.cos angle
  let s : F := Scalar.sin angle
  let axis := normalize v
  let temp := axis.mulS (f1 - c)
  let r00 := c + temp.x * axis.x
  let r01 := temp.x * axis.y + s * axis.z
  let r02 := temp.x * axis.z - s * axis.y
  let r10 := temp.y * axis.x - s * axis.z
  let r11 := c + temp.y * axis.y
  let r12 := temp.y * axis.z + s * axis.x
  let r20 := temp.z * axis.x + s * axis.y
  let r21 := temp.z * axis.y - s * axis.x
  let r22 := c + temp.z * axis.z
  ⟨((m.c0.mulS r00).add (m.c1.mulS r01)).add (m.c2.mulS r02),
   ((m.c0.mulS r10).add (m.c1.mulS r11)).add (m.c2.mulS r12),
   ((m.c0.mulS r20).add (m.c1.mulS r21)).add (m.c2.mulS r22),
   m.c3⟩

end glm

open glm

/-! ## The shape's buffers and the disc object -/

/-- Modelled from the spec: the member `data` of the shape, whose declaration
is in a header that is not among the sources. It holds the buffers `disc.cpp`
uses, with the element types their uses require. -/
structure Data (F : Type) where
  vertices : List (vec3 F)
  normals : List (vec3 F)
  textures : List (vec2 F)
  colors : List (vec4 F)
  indices : List Nat
  normal_visualization_coordinates : List (vec3 F)
  vbackup : List (vec3 F)

/-- Buffers of a freshly constructed shape: all empty. -/
def Data.empty {F : Type} : Data F := ⟨[], [], [], [], [], [], []⟩

/-- Modelled from the spec: the members of a `Disc` object, declared in
`disc.h`, which is not among the sources, with the types their uses in
`disc.cpp` require. `slices` holds the magnitude of the `int` that the
constructor stores, `abs(slices)`; that `int` is not negative, and the member
is the `int` itself, for every argument other than `INT_MIN` (`abs_int`). -/
structure Disc (F : Type) where
  slices : Nat
  span : F
  inner_radius : F
  outer_radius : F
  is_partial_span : Bool
  is_fan : Bool
  data : Data F

/-- Modelled from the spec: the colour utility `RandomColor` of the shape, which
the disc only calls and whose definition is not among the sources: the result
for the call with ordinal `k`, base colour `base` and the optional jitter
bounds. -/
structure ColorSource (F : Type) where
  RandomColor : Nat → vec4 F → Option (F × F) → vec4 F

variable {F : Type} [Scalar F]

/-- The constant `full_span = pi<float>() * 2.0f`. -/
def full_span : F := Scalar.pi * Scalar.ofRat 2

/-- The function `abs` on a 32-bit `int`: the magnitude of `x`, except that
the magnitude of `INT_MIN = -2147483648` is not an `int`; there the negation
wraps around in two's complement and `abs` gives `INT_MIN` back. -/
def abs_int (x : Int) : Int :=
  if x = -2147483648 then -2147483648 else |x|

/-- Constructor `Disc::Disc(slices, span, outer_radius, inner_radius)` (named
`construct` since `Disc` is the type of the object): throws
`std::invalid_argument("bad span value")` when `span == 0`; stores
`abs(slices)` and `min<float>(full_span, abs(span))`. -/
def Disc.construct (slices : Int) (span outer_radius inner_radius : F) :
    Except String (Disc F) :=
  if Scalar.eq span (Scalar.ofRat 0) then
    Except.error "bad span value"
  else
    let span1 : F := Scalar.min full_span (Scalar.abs span)
    Except.ok
      { slices := (abs_int slices).natAbs
        span := span1
        inner_radius := inner_radius
        outer_radius := outer_radius
        is_partial_span := !(Scalar.eq span1 full_span)
        is_fan := false
        data := Data.empty }

/-! ## Loops and vector subscripts -/

/-- A counting loop over a state: `n` iterations, the counter starting at
`i`. -/
def forLoop {σ : Type} (body : Nat → σ → σ) (i : Nat) : Nat → σ → σ
  | 0, s => s
  | n + 1, s => body (i + n) (forLoop body i n s)

/-- A counting loop whose body may leave the bounds of a vector; the loop
stops with `none` at the first iteration that does. -/
def forLoopM {σ : Type} (body : Nat → σ → Option σ) : Nat → Nat → σ → Option σ
  | _, 0, s => some s
  | i, n + 1, s => (body i s).bind (forLoopM body (i + 1) n)

/-- Assignment `l[i] = a` to a vector element; `none` when `i` is out of
range. -/
def writeAt {α : Type} (l : List α) (i : Nat) (a : α) : Option (List α) :=
  if i < l.length then some (l.set i a) else none

/-- Subtraction `a - b` of `size_t` values (both below `2 ^ 64`): wraps
around below zero. -/
def usub (a b : Nat) : Nat := if b ≤ a then a - b else a + 2 ^ 64 - b

/-- The last element `*(l.end() - 1)` of a vector. -/
def back (l : List (vec3 F)) : vec3 F := l.getLast?.getD vec3.zero

/-! ## `Disc::PreGLInitialize` -/

/-- Local `real_number_of_slices`: the number of samples along the arc. -/
def real_number_of_slices (d : Disc F) : Nat :=
  d.slices + (if d.is_partial_span then 1 else 0)

/-- The base colour `vec4(0.5f, 0.5f, 0.5f, 1.0f)` passed to `RandomColor`. -/
def grey : vec4 F :=
  ⟨Scalar.ofRat (1 / 2), Scalar.ofRat (1 / 2), Scalar.ofRat (1 / 2), f1⟩

/-- The texture offset `vec2(0.5f, 0.5f)`. -/
def half2 : vec2 F := ⟨Scalar.ofRat (1 / 2), Scalar.ofRat (1 / 2)⟩

/-- The initial normal `n(0.0f, 0.0f, 1.0f)`, also the rotation axis `z`. -/
def zAxis : vec3 F := ⟨f0, f0, f1⟩

/-- The divisor of line 43, `this->slices`, before its conversion to `float`. -/
def thetaDivisor (d : Disc F) : Nat := d.slices

/-- Local `theta = span / float(slices)`. -/
def theta (d : Disc F) : F := d.span / Scalar.ofRat (thetaDivisor d : ℚ)

/-- Lines 49-54: the centre of the fan. -/
def pushCentre (cs : ColorSource F) (data : Data F) : Data F :=
  let vertices := data.vertices ++ [vec3.zero]
  { data with
    vertices := vertices
    textures := data.textures ++ [half2]
    colors := data.colors ++ [cs.RandomColor data.colors.length grey none]
    normals := data.normals ++ [zAxis]
    normal_visualization_coordinates :=
      data.normal_visualization_coordinates ++
        [back vertices, (zAxis : vec3 F).divS (Scalar.ofRat 8)] }

/-- Lines 60-66: one iteration of the outer-ring loop, on the buffers and the
matrix `m`. -/
def outerRingBody (cs : ColorSource F) (d : Disc F) (_i : Nat) (st : Data F × mat4 F) :
    Data F × mat4 F :=
  let data := st.1
  let m := st.2
  let p : vec4 F := ⟨d.outer_radius, f0, f0, f1⟩
  let vertices := data.vertices ++ [(m.mulVec p).toVec3]
  let last := back vertices
  ({ data with
     vertices := vertices
     textures := data.textures ++
       [(last.toVec2.divS (d.outer_radius * Scalar.ofRat 2)).add half2]
     normals := data.normals ++ [zAxis]
     colors := data.colors ++
       [cs.RandomColor data.colors.length grey
         (some (Scalar.ofRat (-3 / 10), Scalar.ofRat (3 / 10)))]
     normal_visualization_coordinates :=
       data.normal_visualization_coordinates ++
         [last, last.add ((zAxis : vec3 F).divS (Scalar.ofRat 8))] },
   rotate m (theta d) zAxis)

/-- Lines 87-93: one iteration of the inner-ring loop. -/
def innerRingBody (cs : ColorSource F) (d : Disc F) (_i : Nat) (st : Data F × mat4 F) :
    Data F × mat4 F :=
  let data := st.1
  let m := st.2
  let p : vec4 F := ⟨d.inner_radius, f0, f0, f1⟩
  let vertices := data.vertices ++ [(m.mulVec p).toVec3]
  let last := back vertices
  ({ data with
     vertices := vertices
     textures := data.textures ++
       [(p.toVec2.divS (d.inner_radius * Scalar.ofRat 2)).add half2]
     normals := data.normals ++ [zAxis]
     colors := data.colors ++ [cs.RandomColor data.colors.length grey none]
     normal_visualization_coordinates :=
       data.normal_visualization_coordinates ++
         [last, last.add ((zAxis : vec3 F).divS (Scalar.ofRat 8))] },
   rotate m (theta d) zAxis)

/-- Line 74: one iteration of the fan's index loop. -/
def fanIndexBody (i : Nat) (data : Data F) : Data F :=
  { data with indices := data.indices ++ [i] }

/-- Lines 102-108: one iteration of the annulus's triangle loop, with `N` the
local `real_number_of_slices`. -/
def triangleBody (N : Nat) (i : Nat) (data : Data F) : Data F :=
  { data with
    indices := data.indices ++
      [i, N + i, (i + 1) % N, (i + 1) % N, N + i, N + (i + 1) % N] }

/-- Method `Disc::PreGLInitialize`. -/
def Disc.PreGLInitialize (cs : ColorSource F) (d : Disc F) : Disc F × Bool :=
  let N := real_number_of_slices d
  let data1 :=
    if Scalar.eq d.inner_radius (Scalar.ofRat 0) then pushCentre cs d.data else d.data
  let st2 := forLoop (outerRingBody cs d) 0 N (data1, mat4.identity)
  let data3 :=
    if Scalar.eq d.inner_radius (Scalar.ofRat 0) then
      let data := forLoop fanIndexBody 0 st2.1.vertices.length st2.1
      if !d.is_partial_span then { data with indices := data.indices ++ [1] } else data
    else
      let st := forLoop (innerRingBody cs d) 0 N (st2.1, mat4.identity)
      forLoop (triangleBody N) 0 d.slices st.1
  ({ d with
     is_fan := Scalar.eq d.inner_radius (Scalar.ofRat 0)
     data := { data3 with vbackup := data3.vertices } },
   true)

/-! ## `Disc::RecomputeNormals` -/

/-- The locals of `RecomputeNormals`: `sum`, `denominator`, `A`, `B` and the
wedge counter `points` (a `float` that only counts, kept as a number and
converted where it divides). -/
structure Locals (F : Type) where
  sum : vec3 F
  denominator : F
  A : vec3 F
  B : vec3 F
  points : Nat

/-- The locals together with the two vectors written through the references
`n` (normals) and `p` (normal visualization coordinates). -/
structure Work (F : Type) where
  loc : Locals F
  n : List (vec3 F)
  p : List (vec3 F)

/-- The locals at entry: the vectors are zero; `denominator` and `points` are
assigned before they are read. -/
def Locals.init : Locals F :=
  { sum := vec3.zero, denominator := f0, A := vec3.zero, B := vec3.zero, points := 0 }

/-- The term `normalize(cross(normalize(B), normalize(A)))`. -/
def wedge (A B : vec3 F) : vec3 F := normalize (cross (normalize B) (normalize A))

/-- The three assignments `n[i] = x; p[i * 2 + 0] = v[i];
p[i * 2 + 1] = v[i] + n[i] / 8.0f` of lines 148-150, 171-173 and 203-205. -/
def storeNormal (v : List (vec3 F)) (i : Nat) (x : vec3 F) (w : Work F) :
    Option (Work F) := do
  let n ← writeAt w.n i x
  let vi ← v[i]?
  let p ← writeAt w.p (i * 2 + 0) vi
  let ni ← n[i]?
  let p ← writeAt p (i * 2 + 1) (vi.add (ni.divS (Scalar.ofRat 8)))
  pure { w with n := n, p := p }

/-- Lines 135-146: one iteration of the loop for the central vertex, which
touches the locals only. When `i` is the last position and the span is partial
neither branch assigns `A` and `B`, and the term added is built from the values
they already hold. -/
def fanCentreBody (v : List (vec3 F)) (is_partial_span : Bool) (i : Nat)
    (loc : Locals F) : Option (Locals F) := do
  let loc1 ←
    if i ≠ usub v.length 2 then do
      let v0 ← v[0]?
      let vi2 ← v[i + 2]?
      let vi1 ← v[i + 1]?
      pure { loc with A := v0.sub vi2, B := v0.sub vi1 }
    else if !is_partial_span then do
      let v0 ← v[0]?
      let v1 ← v[1]?
      let vi1 ← v[i + 1]?
      pure { loc with A := v0.sub v1, B := v0.sub vi1 }
    else pure loc
  pure { loc1 with sum := loc1.sum.add (wedge loc1.A loc1.B) }

/-- The divisor of line 148, `v.size() - (is_partial_span ? 2 : 1)`, before its
conversion to `float`. -/
def centreDivisor (v : List (vec3 F)) (is_partial_span : Bool) : Nat :=
  usub v.length (if is_partial_span then 2 else 1)

/-- Lines 154-169: the locals of one iteration of the loop over the ring
vertices of the fan. -/
def fanRingLocals (v : List (vec3 F)) (is_partial_span : Bool) (i : Nat)
    (loc : Locals F) : Option (Locals F) := do
  let loc : Locals F := { loc with sum := vec3.zero, points := 0 }
  let loc ←
    if (i ≠ usub v.length 1 && is_partial_span) || !is_partial_span then do
      let vi ← v[i]?
      let v0 ← v[0]?
      let vnext ← v[if i = usub v.length 1 then 1 else i + 1]?
      let A := vi.sub v0
      let B := vi.sub vnext
      pure { loc with A := A, B := B, sum := loc.sum.add (wedge A B),
                      points := loc.points + 1 }
    else pure loc
  if (i ≠ 1 && is_partial_span) || !is_partial_span then do
    let vi ← v[i]?
    let vprev ← v[usub (if i = 1 then v.length else i) 1]?
    let v0 ← v[0]?
    let A := vi.sub vprev
    let B := vi.sub v0
    pure { loc with A := A, B := B, sum := loc.sum.add (wedge A B),
                    points := loc.points + 1 }
  else pure loc

/-- Lines 154-173: one iteration of the loop over the ring vertices of the
fan. -/
def fanRingBody (v : List (vec3 F)) (is_partial_span : Bool) (i : Nat) (w : Work F) :
    Option (Work F) := do
  let loc ← fanRingLocals v is_partial_span i w.loc
  storeNormal v i (loc.sum.neg.divS (Scalar.ofRat (loc.points : ℚ))) { w with loc := loc }

/-- Lines 185-202: the locals of one iteration of the loop over the outer
vertices of a partial annulus. -/
def annulusLocals (v : List (vec3 F)) (slices : Nat) (i : Nat) (loc : Locals F) :
    Option (Locals F) :=
  if i = 0 then do
    let vi ← v[i]?
    let vi1 ← v[i + 1]?
    let vis ← v[i + slices]?
    let A := normalize (vi1.sub vi)
    let B := normalize (vis.sub vi.neg)
    pure { loc with denominator := Scalar.ofRat 1, A := A, B := B,
                    sum := normalize (cross B A) }
  else do
    let vi ← v[i]?
    let vis1 ← v[i + slices - 1]?
    let vim1 ← v[i - 1]?
    let vis ← v[i + slices]?
    let A1 := normalize (vis1.sub vi)
    let B1 := normalize (vim1.sub vi.neg)
    let sum1 := normalize (cross B1 A1)
    let A := normalize (vis.sub vi)
    let B := normalize (vis1.sub vi.neg)
    pure { loc with denominator := Scalar.ofRat 2, A := A, B := B,
                    sum := sum1.add (normalize (cross B A)) }

/-- Lines 181-206: one iteration of the loop over the outer vertices of the
annulus; it does nothing unless the span is partial. -/
def annulusBody (v : List (vec3 F)) (is_partial_span : Bool) (slices : Nat) (i : Nat)
    (w : Work F) : Option (Work F) :=
  if is_partial_span then do
    let loc ← annulusLocals v slices i w.loc
    storeNormal v i (loc.sum.neg.divS loc.denominator) { w with loc := loc }
  else pure w

/-- The body of `RecomputeNormals` on what it reads: whether the disc is a fan
(`inner_radius == 0.0f`), `is_partial_span`, `slices`, the vertices `v` and the
vectors `n` and `p`. The result holds the final `n` and `p`, or is `none` when
a subscript leaves its vector. -/
def recomputeWork (fan is_partial_span : Bool) (slices : Nat) (v n p : List (vec3 F)) :
    Option (Work F) :=
  if fan then do
    let loc ← forLoopM (fanCentreBody v is_partial_span) 0 (usub v.length 1) Locals.init
    let w ← storeNormal v 0
      (loc.sum.neg.divS (Scalar.ofRat (centreDivisor v is_partial_span : ℚ)))
      { loc := loc, n := n, p := p }
    forLoopM (fanRingBody v is_partial_span) 1 (v.length - 1) w
  else
    forLoopM (annulusBody v is_partial_span slices) 0 slices
      { loc := Locals.init, n := n, p := p }

/-- Method `Disc::RecomputeNormals`: only `normals` and
`normal_visualization_coordinates` are assigned. -/
def Disc.RecomputeNormals (d : Disc F) : Option (Disc F) :=
  (recomputeWork (Scalar.eq d.inner_radius (Scalar.ofRat 0)) d.is_partial_span d.slices
      d.data.vertices d.data.normals d.data.normal_visualization_coordinates).map fun w =>
    { d with data := { d.data with normals := w.n, normal_visualization_coordinates := w.p } }

/-! ## A rational instance of the scalars, for evaluating the model -/

/-- Rational arithmetic as an instance of `Scalar`: exact field operations, and
rational approximations of `pi`, `sqrt`, `sin` and `cos`. -/
instance : Scalar ℚ where
  ofRat q := q
  abs q := |q|
  sqrt q := (q + 1) / 2
  sin q := q - q * q * q / 6
  cos q := 1 - q * q / 2
  pi := 355 / 113
  eq a b := decide (a = b)
  lt a b := decide (a < b)

/-- The colour source that returns the base colour unchanged. -/
def plainColor : ColorSource ℚ := ⟨fun _ base _ => base⟩

/-! ## Notions used in the statements -/

/-- The matrix `m` after one more ring sample: `rotate(m, theta, z)`. -/
def rotStep (d : Disc F) (m : mat4 F) : mat4 F := rotate m (theta d) zAxis

/-- The `k`-th sample of the ring of radius `r`: the point `(r, 0, 0, 1)`
under the matrix obtained from the identity by `k` rotations by `theta`. -/
def ringSample (d : Disc F) (r : F) (k : Nat) : vec3 F :=
  (((rotStep d)^[k] mat4.identity).mulVec ⟨r, f0, f0, f1⟩).toVec3

/-- The texture coordinate the outer-ring loop gives to a vertex. -/
def outerTexture (d : Disc F) (x : vec3 F) : vec2 F :=
  (x.toVec2.divS (d.outer_radius * Scalar.ofRat 2)).add half2

/-- The texture coordinate the inner-ring loop gives to every vertex: built
from the unrotated point `p`. -/
def innerTexture (d : Disc F) : vec2 F :=
  ((⟨d.inner_radius, f0, f0, f1⟩ : vec4 F).toVec2.divS (d.inner_radius * Scalar.ofRat 2)).add half2

/-- The pair of visualization coordinates pushed with a ring vertex. -/
def ringVisualization (x : vec3 F) : List (vec3 F) :=
  [x, x.add ((zAxis : vec3 F).divS (Scalar.ofRat 8))]

/-- The six indices of the two triangles of slice `i`. -/
def sliceTriangles (N i : Nat) : List Nat :=
  [i, N + i, (i + 1) % N, (i + 1) % N, N + i, N + (i + 1) % N]

/-- Whether the disc is a fan: the test `inner_radius == 0.0f`. -/
def isFanTest (d : Disc F) : Bool := Scalar.eq d.inner_radius (Scalar.ofRat 0)

/-- The number of vertices `PreGLInitialize` creates: the centre and one ring
for a fan, two rings for an annulus. -/
def vertexCount (d : Disc F) : Nat :=
  if isFanTest d then 1 + real_number_of_slices d else 2 * real_number_of_slices d

/-- The effective sample count in the words of the specification: `slices + 1`
when the span is partial and `slices` when it is a full turn. -/
def effectiveSampleCount (d : Disc F) : Nat :=
  if d.is_partial_span then d.slices + 1 else d.slices

/-- The state after an edit of the vertex positions: the vertices replaced by
`vs`, everything else kept. -/
def setVertices (g : Disc F) (vs : List (vec3 F)) : Disc F :=
  { g with data := { g.data with vertices := vs } }

/-- A state has the sizes of a generated one: the vertex count of its shape,
as many normals, and twice as many visualization coordinates. -/
def WellSized (g : Disc F) : Prop :=
  g.data.vertices.length = vertexCount g ∧
  g.data.normals.length = g.data.vertices.length ∧
  g.data.normal_visualization_coordinates.length = 2 * g.data.vertices.length

/-- The facts about the comparisons `==` and `<`, `abs` and the constant
`full_span` that the statement about the stored span uses. Each of them holds
of IEEE floating point, not-a-number included: `<` is irreflexive and
asymmetric and excludes `==`; a value that is not zero and whose `abs` is below
some bound has a positive `abs`; and the constant `full_span` is a positive
number equal to itself. Reflexivity of `==`, which not-a-number breaks, is not
among them. -/
structure ComparisonLaws (F : Type) [Scalar F] : Prop where
  lt_irrefl : ∀ a : F, Scalar.lt a a = false
  lt_asymm : ∀ a b : F, Scalar.lt a b = true → Scalar.lt b a = false
  lt_ne : ∀ a b : F, Scalar.lt a b = true → Scalar.eq a b = false
  abs_pos_of_lt : ∀ a b : F, Scalar.lt (Scalar.abs a) b = true →
    Scalar.eq a (Scalar.ofRat 0) = false →
    Scalar.lt (Scalar.ofRat 0) (Scalar.abs a) = true
  full_span_eq_self : Scalar.eq (full_span : F) full_span = true
  full_span_pos : Scalar.lt (Scalar.ofRat 0) (full_span : F) = true

/-! ## Scalars with a not-a-number -/

/-- Rational numbers extended by a not-a-number, the value IEEE arithmetic
gives to an undefined operation. -/
inductive RatNaN where
  | num (q : ℚ)
  | nan
deriving DecidableEq

/-- Lift of a unary operation: not-a-number is propagated. -/
def RatNaN.map (f : ℚ → ℚ) : RatNaN → RatNaN
  | RatNaN.num a => RatNaN.num (f a)
  | RatNaN.nan => RatNaN.nan

/-- Lift of a binary operation: not-a-number is propagated. -/
def RatNaN.map2 (f : ℚ → ℚ → ℚ) : RatNaN → RatNaN → RatNaN
  | RatNaN.num a, RatNaN.num b => RatNaN.num (f a b)
  | _, _ => RatNaN.nan

/-- Lift of a comparison: false as soon as one side is not-a-number. -/
def RatNaN.cmp (f : ℚ → ℚ → Bool) : RatNaN → RatNaN → Bool
  | RatNaN.num a, RatNaN.num b => f a b
  | _, _ => false

/-- The rationals with a not-a-number as an instance of `Scalar`: the
operations of the rational instance on numbers, with not-a-number propagated
by every operation and every comparison with it false, as in IEEE arithmetic;
`0 / 0` is not-a-number. -/
instance : Scalar RatNaN where
  add := RatNaN.map2 (fun a b => a + b)
  sub := RatNaN.map2 (fun a b => a - b)
  mul := RatNaN.map2 (fun a b => a * b)
  div x y := if x = RatNaN.num 0 ∧ y = RatNaN.num 0 then RatNaN.nan
    else RatNaN.map2 (fun a b => a / b) x y
  neg := RatNaN.map (fun a => -a)
  ofRat q := RatNaN.num q
  abs := RatNaN.map (fun a => |a|)
  sqrt := RatNaN.map (fun a => (a + 1) / 2)
  sin := RatNaN.map (fun a => a - a * a * a / 6)
  cos := RatNaN.map (fun a => 1 - a * a / 2)
  pi := RatNaN.num (355 / 113)
  eq := RatNaN.cmp (fun a b => decide (a = b))
  lt := RatNaN.cmp (fun a b => decide (a < b))

/-! ## Exact real arithmetic -/

/-- Exact real arithmetic as an instance of `Scalar`: the field operations of
the real numbers with the real `sqrt`, `sin`, `cos` and `pi`. -/
noncomputable instance : Scalar ℝ where
  ofRat q := (q : ℝ)
  abs x := |x|
  sqrt x := Real.sqrt x
  sin x := Real.sin x
  cos x := Real.cos x
  pi := Real.pi
  eq a b := decide (a = b)
  lt a b := decide (a < b)

/-- The colour source over the reals that returns the base colour unchanged. -/
def plainColorReal : ColorSource ℝ := ⟨fun _ base _ => base⟩

/-- The distance of a point from the origin, `sqrt(dot(v, v))`. -/
def distanceFromOrigin (v : vec3 F) : F := Scalar.sqrt (dot v v)

/-- The rotation about the `z` axis by the angle `a`, as a `mat4`. -/
noncomputable def zRotation (a : ℝ) : mat4 ℝ :=
  ⟨⟨Real.cos a, Real.sin a, 0, 0⟩, ⟨-Real.sin a, Real.cos a, 0, 0⟩, ⟨0, 0, 1, 0⟩,
   ⟨0, 0, 0, 1⟩⟩


/-- Invoking `RecomputeNormals` `n` times in a row; `none` as soon as one
invocation leaves a vector. -/
def recomputeTimes : Nat → Disc F → Option (Disc F)
  | 0, g => some g
  | n + 1, g => (recomputeTimes n g).bind Disc.RecomputeNormals


/-- The vertex `v[j]`, the zero vector when `j` is outside `v`. -/
def vertexAt (v : List (vec3 F)) (j : Nat) : vec3 F := v.getD j vec3.zero

/-- The next neighbour of ring vertex `i` on a ring of `R` vertices `1..R`:
`i + 1`, wrapping `R` to `1`. -/
def ringNext (R i : Nat) : Nat := if i = R then 1 else i + 1

/-- The previous neighbour of ring vertex `i` on a ring of `R` vertices
`1..R`: `i - 1`, wrapping `1` to `R`. -/
def ringPrev (R i : Nat) : Nat := if i = 1 then R else i - 1

/-- The unit normal of the wedge between ring vertex `i` and its next
neighbour, seen from vertex `i`: the normalized cross product of the unit
vector from the next neighbour to `v[i]` and the unit vector from the centre
`v[0]` to `v[i]`. -/
def nextWedge (v : List (vec3 F)) (R i : Nat) : vec3 F :=
  normalize (cross
    (normalize ((vertexAt v i).sub (vertexAt v (ringNext R i))))
    (normalize ((vertexAt v i).sub (vertexAt v 0))))

/-- The unit normal of the wedge between ring vertex `i` and its previous
neighbour, seen from vertex `i`: the normalized cross product of the unit
vector from the centre `v[0]` to `v[i]` and the unit vector from the previous
neighbour to `v[i]`. -/
def prevWedge (v : List (vec3 F)) (R i : Nat) : vec3 F :=
  normalize (cross
    (normalize ((vertexAt v i).sub (vertexAt v 0)))
    (normalize ((vertexAt v i).sub (vertexAt v (ringPrev R i)))))

/-- The wedges adjacent to ring vertex `i` of a fan with `R` ring vertices:
the next and the previous one, except that under an open span the last ring
vertex has no next wedge and the first has no previous wedge. -/
def adjacentWedges (v : List (vec3 F)) (R : Nat) (open_span : Bool) (i : Nat) :
    List (vec3 F) :=
  (if open_span = true ∧ i = R then [] else [nextWedge v R i]) ++
  (if open_span = true ∧ i = 1 then [] else [prevWedge v R i])

/-- The negated average of a list of vectors: minus their sum, accumulated
from the zero vector in order, divided by their number. -/
def negatedAverage (ws : List (vec3 F)) : vec3 F :=
  ((ws.foldl vec3.add vec3.zero).neg).divS (Scalar.ofRat (ws.length : ℚ))


/-- The unit normal of the wedge between ring vertices `k` and `k + 1` of a
fan, seen from the centre `v[0]`. -/
def pairWedge (v : List (vec3 F)) (k : Nat) : vec3 F :=
  wedge ((vertexAt v 0).sub (vertexAt v (k + 1))) ((vertexAt v 0).sub (vertexAt v k))

/-- The unit normal of the closing wedge between the last ring vertex `R` and
the first, seen from the centre `v[0]`. -/
def closingWedge (v : List (vec3 F)) (R : Nat) : vec3 F :=
  wedge ((vertexAt v 0).sub (vertexAt v 1)) ((vertexAt v 0).sub (vertexAt v R))

/-- The sum, accumulated from the zero vector, of the wedges between ring
vertices `k` and `k + 1` for `k = 1, ..., m`. -/
def sumPairWedges (v : List (vec3 F)) : Nat → vec3 F
  | 0 => vec3.zero
  | m + 1 => (sumPairWedges v m).add (pairWedge v (m + 1))


/-- The normal lines 185-203 compute for outer vertex `i` of a partial annulus:
for `i = 0` from `v[i + 1]` and `v[i + slices]`, divided by 1, and for every
other `i` from `v[i - 1]`, `v[i + slices - 1]` and `v[i + slices]`, divided by
2. Every `B` is `v[..] - -v[i]`. -/
def annulusNormal (v : List (vec3 F)) (slices i : Nat) : vec3 F :=
  if i = 0 then
    ((normalize (cross
        (normalize ((vertexAt v (i + slices)).sub (vertexAt v i).neg))
        (normalize ((vertexAt v (i + 1)).sub (vertexAt v i))))).neg).divS (Scalar.ofRat 1)
  else
    (((normalize (cross
        (normalize ((vertexAt v (i - 1)).sub (vertexAt v i).neg))
        (normalize ((vertexAt v (i + slices - 1)).sub (vertexAt v i))))).add
      (normalize (cross
        (normalize ((vertexAt v (i + slices - 1)).sub (vertexAt v i).neg))
        (normalize ((vertexAt v (i + slices)).sub (vertexAt v i)))))).neg).divS
      (Scalar.ofRat 2)

/-- The normal of the seam vertex as C16 states it, `E` being the index of the
inner-ring vertex that corresponds to outer vertex 0:
`-normalize(cross(normalize(v[E] - v[0]), normalize(v[1] - v[0])))`. -/
def claimedSeamNormal (v : List (vec3 F)) (E : Nat) : vec3 F :=
  (normalize (cross
    (normalize ((vertexAt v E).sub (vertexAt v 0)))
    (normalize ((vertexAt v 1).sub (vertexAt v 0))))).neg


/-- A state before a recomputation: the vertices `vs`, the normals `n` and the
normal visualization coordinates `p` that earlier calls or the caller left,
everything else as in `g`. -/
def setBuffers (g : Disc F) (vs n p : List (vec3 F)) : Disc F :=
  { g with data := { g.data with vertices := vs, normals := n,
                                 normal_visualization_coordinates := p } }


/-! ## Construction -/

/-- C1: constructing a disc fails (throws) exactly when `span == 0`, and
succeeds exactly when `span == 0` is false, whatever the slices and radii. -/
theorem construct_fails_iff_span_zero (slices : Int) (span outer_radius inner_radius : F) :
    ((∃ e, Disc.construct slices span outer_radius inner_radius = Except.error e) ↔
        Scalar.eq span (Scalar.ofRat 0) = true) ∧
    ((∃ d, Disc.construct slices span outer_radius inner_radius = Except.ok d) ↔
        Scalar.eq span (Scalar.ofRat 0) = false) := by
  unfold Disc.construct
  cases h : Scalar.eq span (Scalar.ofRat 0) <;> simp

/-! ## Closed forms of the generated buffers -/

theorem forLoop_zero {σ : Type} (body : Nat → σ → σ) (i : Nat) (s : σ) :
    forLoop body i 0 s = s := rfl

theorem forLoop_succ {σ : Type} (body : Nat → σ → σ) (i n : Nat) (s : σ) :
    forLoop body i (n + 1) s = body (i + n) (forLoop body i n s) := rfl

theorem back_concat (l : List (vec3 F)) (a : vec3 F) : back (l ++ [a]) = a := by
  simp [back]

/-- The state after `n` iterations of the outer-ring loop started on `data`
with the identity matrix. -/
theorem outerRing_loop (cs : ColorSource F) (d : Disc F) (data : Data F) (n : Nat) :
    (forLoop (outerRingBody cs d) 0 n (data, mat4.identity)).2
        = (rotStep d)^[n] mat4.identity ∧
    (forLoop (outerRingBody cs d) 0 n (data, mat4.identity)).1.vertices
        = data.vertices ++ (List.range n).map (ringSample d d.outer_radius) ∧
    (forLoop (outerRingBody cs d) 0 n (data, mat4.identity)).1.normals
        = data.normals ++ List.replicate n zAxis ∧
    (forLoop (outerRingBody cs d) 0 n (data, mat4.identity)).1.textures
        = data.textures ++
          (List.range n).map (fun k => outerTexture d (ringSample d d.outer_radius k)) ∧
    (forLoop (outerRingBody cs d) 0 n (data, mat4.identity)).1.normal_visualization_coordinates
        = data.normal_visualization_coordinates ++
          (List.range n).flatMap (fun k => ringVisualization (ringSample d d.outer_radius k)) ∧
    (forLoop (outerRingBody cs d) 0 n (data, mat4.identity)).1.indices = data.indices ∧
    (forLoop (outerRingBody cs d) 0 n (data, mat4.identity)).1.vbackup = data.vbackup ∧
    (forLoop (outerRingBody cs d) 0 n (data, mat4.identity)).1.colors.length
        = data.colors.length + n := by
  induction n with
  | zero => simp [forLoop_zero]
  | succ n ih =>
    obtain ⟨hm, hv, hn, ht, hp, hi, hb, hc⟩ := ih
    rw [forLoop_succ]
    generalize forLoop (outerRingBody cs d) 0 n (data, mat4.identity) = st at *
    simp only [outerRingBody, back_concat, hm, hv, hn, ht, hp, hi, hb, hc,
      Function.iterate_succ_apply', List.range_succ, List.map_append, List.flatMap_append,
      List.replicate_succ', List.length_append]
    simp [ringSample, rotStep, outerTexture, ringVisualization, List.flatMap]
    omega

/-- The state after `n` iterations of the inner-ring loop started on `data`
with the identity matrix. -/
theorem innerRing_loop (cs : ColorSource F) (d : Disc F) (data : Data F) (n : Nat) :
    (forLoop (innerRingBody cs d) 0 n (data, mat4.identity)).2
        = (rotStep d)^[n] mat4.identity ∧
    (forLoop (innerRingBody cs d) 0 n (data, mat4.identity)).1.vertices
        = data.vertices ++ (List.range n).map (ringSample d d.inner_radius) ∧
    (forLoop (innerRingBody cs d) 0 n (data, mat4.identity)).1.normals
        = data.normals ++ List.replicate n zAxis ∧
    (forLoop (innerRingBody cs d) 0 n (data, mat4.identity)).1.textures
        = data.textures ++ List.replicate n (innerTexture d) ∧
    (forLoop (innerRingBody cs d) 0 n (data, mat4.identity)).1.normal_visualization_coordinates
        = data.normal_visualization_coordinates ++
          (List.range n).flatMap (fun k => ringVisualization (ringSample d d.inner_radius k)) ∧
    (forLoop (innerRingBody cs d) 0 n (data, mat4.identity)).1.indices = data.indices ∧
    (forLoop (innerRingBody cs d) 0 n (data, mat4.identity)).1.vbackup = data.vbackup ∧
    (forLoop (innerRingBody cs d) 0 n (data, mat4.identity)).1.colors.length
        = data.colors.length + n := by
  induction n with
  | zero => simp [forLoop_zero]
  | succ n ih =>
    obtain ⟨hm, hv, hn, ht, hp, hi, hb, hc⟩ := ih
    rw [forLoop_succ]
    generalize forLoop (innerRingBody cs d) 0 n (data, mat4.identity) = st at *
    simp only [innerRingBody, back_concat, hm, hv, hn, ht, hp, hi, hb, hc,
      Function.iterate_succ_apply', List.range_succ, List.map_append, List.flatMap_append,
      List.replicate_succ', List.length_append]
    simp [ringSample, rotStep, innerTexture, ringVisualization, List.flatMap]
    omega

/-- The fan's index loop appends the run `0, 1, ..., n - 1`. -/
theorem fanIndex_loop (data : Data F) (n : Nat) :
    forLoop fanIndexBody 0 n data = { data with indices := data.indices ++ List.range n } := by
  induction n with
  | zero => simp [forLoop_zero]
  | succ n ih => rw [forLoop_succ, ih]; simp [fanIndexBody, List.range_succ]

/-- The annulus's triangle loop appends the six indices of each slice in turn. -/
theorem triangle_loop (N : Nat) (data : Data F) (n : Nat) :
    forLoop (triangleBody N) 0 n data
      = { data with indices := data.indices ++ (List.range n).flatMap (sliceTriangles N) } := by
  induction n with
  | zero => simp [forLoop_zero]
  | succ n ih =>
    rw [forLoop_succ, ih]
    simp [triangleBody, List.range_succ, sliceTriangles, List.flatMap]

/-- The buffers of a fan generated on empty buffers. -/
theorem PreGLInitialize_fan (cs : ColorSource F) (d : Disc F) (hd : d.data = Data.empty)
    (hfan : isFanTest d = true) :
    (Disc.PreGLInitialize cs d).1.data.vertices
        = vec3.zero :: (List.range (real_number_of_slices d)).map (ringSample d d.outer_radius) ∧
    (Disc.PreGLInitialize cs d).1.data.normals
        = List.replicate (real_number_of_slices d + 1) zAxis ∧
    (Disc.PreGLInitialize cs d).1.data.textures
        = half2 :: (List.range (real_number_of_slices d)).map
            (fun k => outerTexture d (ringSample d d.outer_radius k)) ∧
    (Disc.PreGLInitialize cs d).1.data.normal_visualization_coordinates
        = [vec3.zero, (zAxis : vec3 F).divS (Scalar.ofRat 8)] ++
          (List.range (real_number_of_slices d)).flatMap
            (fun k => ringVisualization (ringSample d d.outer_radius k)) ∧
    (Disc.PreGLInitialize cs d).1.data.indices
        = List.range (real_number_of_slices d + 1) ++
          (if d.is_partial_span then [] else [1]) ∧
    (Disc.PreGLInitialize cs d).1.data.vbackup = (Disc.PreGLInitialize cs d).1.data.vertices := by
  unfold isFanTest at hfan
  obtain ⟨-, hv, hn, ht, hp, hi, -, -⟩ :=
    outerRing_loop cs d (pushCentre cs d.data) (real_number_of_slices d)
  simp only [Disc.PreGLInitialize, hfan, if_true, fanIndex_loop, hv, hn, ht, hp, hi]
  cases d.is_partial_span <;>
    simp [pushCentre, hd, Data.empty, back, List.replicate_succ, Nat.add_comm]

/-- The buffers of an annulus generated on empty buffers. -/
theorem PreGLInitialize_annulus (cs : ColorSource F) (d : Disc F) (hd : d.data = Data.empty)
    (hfan : isFanTest d = false) :
    (Disc.PreGLInitialize cs d).1.data.vertices
        = (List.range (real_number_of_slices d)).map (ringSample d d.outer_radius) ++
          (List.range (real_number_of_slices d)).map (ringSample d d.inner_radius) ∧
    (Disc.PreGLInitialize cs d).1.data.normals
        = List.replicate (real_number_of_slices d + real_number_of_slices d) zAxis ∧
    (Disc.PreGLInitialize cs d).1.data.textures
        = (List.range (real_number_of_slices d)).map
            (fun k => outerTexture d (ringSample d d.outer_radius k)) ++
          List.replicate (real_number_of_slices d) (innerTexture d) ∧
    (Disc.PreGLInitialize cs d).1.data.normal_visualization_coordinates
        = (List.range (real_number_of_slices d)).flatMap
            (fun k => ringVisualization (ringSample d d.outer_radius k)) ++
          (List.range (real_number_of_slices d)).flatMap
            (fun k => ringVisualization (ringSample d d.inner_radius k)) ∧
    (Disc.PreGLInitialize cs d).1.data.indices
        = (List.range d.slices).flatMap (sliceTriangles (real_number_of_slices d)) ∧
    (Disc.PreGLInitialize cs d).1.data.vbackup = (Disc.PreGLInitialize cs d).1.data.vertices := by
  unfold isFanTest at hfan
  obtain ⟨-, hv, hn, ht, hp, hi, -, -⟩ :=
    outerRing_loop cs d d.data (real_number_of_slices d)
  obtain ⟨-, hv2, hn2, ht2, hp2, hi2, -, -⟩ :=
    innerRing_loop cs d (forLoop (outerRingBody cs d) 0 (real_number_of_slices d)
      (d.data, mat4.identity)).1 (real_number_of_slices d)
  rw [hv] at hv2
  rw [hn] at hn2
  rw [ht] at ht2
  rw [hp] at hp2
  rw [hi] at hi2
  rw [hd] at hv2 hn2 ht2 hp2 hi2
  simp only [Data.empty, List.nil_append, ← List.replicate_add] at hv2 hn2 ht2 hp2 hi2
  simp only [Disc.PreGLInitialize, hfan, triangle_loop, hd, Data.empty]
  refine ⟨hv2, hn2, ht2, hp2, ?_, trivial⟩
  simp only [hi2, List.nil_append, Bool.false_eq_true, if_false]

/-! ## What the constructor stores -/

/-- The magnitude of `abs(x)` is the magnitude of `x`, for every `x`. -/
theorem natAbs_abs_int (x : Int) : (abs_int x).natAbs = x.natAbs := by
  unfold abs_int
  split_ifs with h
  · rw [h]
  · exact Int.natAbs_abs x

/-- The `abs` of an `int` other than `INT_MIN` is its magnitude. -/
theorem abs_int_of_ne {x : Int} (h : x ≠ -2147483648) : abs_int x = |x| := by
  simp [abs_int, h]

/-- The object a successful construction returns. -/
theorem construct_of_span_ne_zero (slices : Int) (span outer_radius inner_radius : F)
    (h : Scalar.eq span (Scalar.ofRat 0) = false) :
    Disc.construct slices span outer_radius inner_radius =
      Except.ok
        { slices := slices.natAbs
          span := Scalar.min full_span (Scalar.abs span)
          inner_radius := inner_radius
          outer_radius := outer_radius
          is_partial_span := !(Scalar.eq (Scalar.min full_span (Scalar.abs span)) full_span)
          is_fan := false
          data := Data.empty } := by
  simp [Disc.construct, h, natAbs_abs_int]

/-- The members of a constructed disc. -/
theorem construct_ok {slices : Int} {span outer_radius inner_radius : F} {d : Disc F}
    (h : Disc.construct slices span outer_radius inner_radius = Except.ok d) :
    Scalar.eq span (Scalar.ofRat 0) = false ∧
    d.slices = slices.natAbs ∧
    d.span = Scalar.min full_span (Scalar.abs span) ∧
    d.inner_radius = inner_radius ∧
    d.outer_radius = outer_radius ∧
    d.is_partial_span = !(Scalar.eq d.span full_span) ∧
    d.data = Data.empty := by
  unfold Disc.construct at h
  cases hs : Scalar.eq span (Scalar.ofRat 0)
  · simp only [hs, Bool.false_eq_true, if_false, Except.ok.injEq] at h
    subst h
    simp [natAbs_abs_int]
  · simp [hs] at h

/-! ## Sizes of the generated buffers -/

theorem length_flatMap_of_length {α β : Type} (f : α → List β) (c : Nat)
    (h : ∀ a, (f a).length = c) (l : List α) : (l.flatMap f).length = c * l.length := by
  induction l with
  | nil => simp
  | cons a l ih => simp [List.flatMap_cons, h, ih, Nat.mul_succ, Nat.add_comm]

/-- The sizes of the buffers generated on empty buffers. -/
theorem PreGLInitialize_lengths (cs : ColorSource F) (d : Disc F) (hd : d.data = Data.empty) :
    (Disc.PreGLInitialize cs d).1.data.vertices.length = vertexCount d ∧
    (Disc.PreGLInitialize cs d).1.data.normals.length = vertexCount d ∧
    (Disc.PreGLInitialize cs d).1.data.textures.length = vertexCount d ∧
    (Disc.PreGLInitialize cs d).1.data.normal_visualization_coordinates.length
      = 2 * vertexCount d := by
  cases hfan : isFanTest d
  · obtain ⟨hv, hn, ht, hp, -, -⟩ := PreGLInitialize_annulus cs d hd hfan
    rw [hv, hn, ht, hp]
    simp only [vertexCount, hfan, List.length_append, List.length_map, List.length_range,
      List.length_replicate,
      length_flatMap_of_length _ 2 (fun _ => rfl : ∀ k : Nat,
        (ringVisualization (ringSample d d.outer_radius k)).length = 2),
      length_flatMap_of_length _ 2 (fun _ => rfl : ∀ k : Nat,
        (ringVisualization (ringSample d d.inner_radius k)).length = 2)]
    simp only [Bool.false_eq_true, if_false]
    omega
  · obtain ⟨hv, hn, ht, hp, -, -⟩ := PreGLInitialize_fan cs d hd hfan
    rw [hv, hn, ht, hp]
    simp only [vertexCount, hfan, List.length_append, List.length_map, List.length_range,
      List.length_replicate, List.length_cons, List.length_nil,
      length_flatMap_of_length _ 2 (fun _ => rfl : ∀ k : Nat,
        (ringVisualization (ringSample d d.outer_radius k)).length = 2)]
    simp only [if_true]
    omega

/-- C2: for every disc constructed from any slices, any span that is not zero
and any radii, after `PreGLInitialize` on the empty buffers the vertices,
normals and textures have the same length and the normal visualization
coordinates have exactly twice that length. -/
theorem generated_buffer_lengths (cs : ColorSource F) (slices : Int)
    (span outer_radius inner_radius : F) (d : Disc F)
    (h : Disc.construct slices span outer_radius inner_radius = Except.ok d) :
    (Disc.PreGLInitialize cs d).1.data.vertices.length
      = (Disc.PreGLInitialize cs d).1.data.normals.length ∧
    (Disc.PreGLInitialize cs d).1.data.normals.length
      = (Disc.PreGLInitialize cs d).1.data.textures.length ∧
    (Disc.PreGLInitialize cs d).1.data.normal_visualization_coordinates.length
      = 2 * (Disc.PreGLInitialize cs d).1.data.vertices.length := by
  obtain ⟨hv, hn, ht, hp⟩ := PreGLInitialize_lengths cs d (construct_ok h).2.2.2.2.2.2
  rw [hv, hn, ht, hp]
  exact ⟨rfl, rfl, rfl⟩

/-- Witness of C2: the annulus with 3 slices, span 1 and radii 2 and 1. -/
theorem generated_buffer_lengths_witness :
    ∃ d : Disc ℚ, Disc.construct 3 (1 : ℚ) 2 1 = Except.ok d ∧
      (Disc.PreGLInitialize plainColor d).1.data.vertices.length
        = (Disc.PreGLInitialize plainColor d).1.data.normals.length ∧
      (Disc.PreGLInitialize plainColor d).1.data.normals.length
        = (Disc.PreGLInitialize plainColor d).1.data.textures.length ∧
      (Disc.PreGLInitialize plainColor d).1.data.normal_visualization_coordinates.length
        = 2 * (Disc.PreGLInitialize plainColor d).1.data.vertices.length :=
  ⟨_, construct_of_span_ne_zero 3 1 2 1 (by decide),
    generated_buffer_lengths plainColor 3 1 2 1 _ (construct_of_span_ne_zero 3 1 2 1 (by decide))⟩

/-! ## Vertex layout -/

theorem real_number_of_slices_eq (d : Disc F) :
    real_number_of_slices d = effectiveSampleCount d := by
  unfold real_number_of_slices effectiveSampleCount
  cases d.is_partial_span <;> simp

/-- C4: for every fan disc with `V` generated vertices the index sequence is
the ascending run `0, 1, ..., V - 1`, followed by the single index `1` exactly
when the span is a full turn; for a full span the last two indices are
`V - 1` and `1`, for a partial span the last index is `V - 1`. -/
theorem fan_indices (cs : ColorSource F) (slices : Int)
    (span outer_radius inner_radius : F) (d : Disc F)
    (h : Disc.construct slices span outer_radius inner_radius = Except.ok d)
    (hz : Scalar.eq inner_radius (Scalar.ofRat 0) = true) :
    (Disc.PreGLInitialize cs d).1.data.indices
      = List.range (Disc.PreGLInitialize cs d).1.data.vertices.length ++
        (if d.is_partial_span then [] else [1]) ∧
    (d.is_partial_span = false →
      (Disc.PreGLInitialize cs d).1.data.indices.length
        = (Disc.PreGLInitialize cs d).1.data.vertices.length + 1 ∧
      (Disc.PreGLInitialize cs d).1.data.indices[
          (Disc.PreGLInitialize cs d).1.data.vertices.length - 1]?
        = some ((Disc.PreGLInitialize cs d).1.data.vertices.length - 1) ∧
      (Disc.PreGLInitialize cs d).1.data.indices[
          (Disc.PreGLInitialize cs d).1.data.vertices.length]? = some 1) ∧
    (d.is_partial_span = true →
      (Disc.PreGLInitialize cs d).1.data.indices.length
        = (Disc.PreGLInitialize cs d).1.data.vertices.length ∧
      (Disc.PreGLInitialize cs d).1.data.indices[
          (Disc.PreGLInitialize cs d).1.data.vertices.length - 1]?
        = some ((Disc.PreGLInitialize cs d).1.data.vertices.length - 1)) := by
  obtain ⟨-, -, -, hin, -, -, hd⟩ := construct_ok h
  have hfan : isFanTest d = true := by rw [isFanTest, hin]; exact hz
  obtain ⟨hv, -, -, -, hi, -⟩ := PreGLInitialize_fan cs d hd hfan
  have hlen : (Disc.PreGLInitialize cs d).1.data.vertices.length
      = real_number_of_slices d + 1 := by rw [hv]; simp
  rw [hi, hlen]
  refine ⟨rfl, ?_, ?_⟩
  · intro hp
    simp only [hp, Bool.false_eq_true, if_false, Nat.add_sub_cancel]
    refine ⟨by simp, ?_, ?_⟩
    · rw [List.getElem?_append_left (by simp)]
      exact List.getElem?_range (Nat.lt_succ_self _)
    · rw [List.getElem?_append_right (by simp)]
      simp
  · intro hp
    simp only [hp, if_true, List.append_nil, Nat.add_sub_cancel]
    exact ⟨by simp, List.getElem?_range (Nat.lt_succ_self _)⟩

/-- Witness of C4: slices 4 with a full span gives the indices
`[0, 1, 2, 3, 4, 1]`, and slices 4 with span `pi` gives `[0, 1, 2, 3, 4, 5]`. -/
theorem fan_indices_witness :
    (∃ d : Disc ℚ, Disc.construct 4 (full_span : ℚ) 1 0 = Except.ok d ∧
      (Disc.PreGLInitialize plainColor d).1.data.indices = [0, 1, 2, 3, 4, 1]) ∧
    (∃ d : Disc ℚ, Disc.construct 4 (Scalar.pi : ℚ) 1 0 = Except.ok d ∧
      (Disc.PreGLInitialize plainColor d).1.data.indices = [0, 1, 2, 3, 4, 5]) :=
  ⟨⟨_, construct_of_span_ne_zero 4 full_span 1 0 (by decide!),
      ((fan_indices plainColor 4 full_span 1 0 _
        (construct_of_span_ne_zero 4 full_span 1 0 (by decide!)) (by decide!)).1).trans
        (by decide!)⟩,
    ⟨_, construct_of_span_ne_zero 4 Scalar.pi 1 0 (by decide!),
      ((fan_indices plainColor 4 Scalar.pi 1 0 _
        (construct_of_span_ne_zero 4 Scalar.pi 1 0 (by decide!)) (by decide!)).1).trans
        (by decide!)⟩⟩

theorem flatMap_range_block {α : Type} (f : Nat → List α) (c : Nat)
    (hf : ∀ i, (f i).length = c) (n i : Nat) (hi : i < n) :
    (((List.range n).flatMap f).drop (c * i)).take c = f i := by
  induction n with
  | zero => omega
  | succ n ih =>
    have hlen : ((List.range n).flatMap f).length = c * n := by
      rw [length_flatMap_of_length f c hf, List.length_range]
    rw [List.range_succ, List.flatMap_append, List.flatMap_singleton]
    by_cases hin : i < n
    · have h1 : c * i + c ≤ c * n := by
        calc c * i + c = c * (i + 1) := by rw [Nat.mul_succ]
          _ ≤ c * n := Nat.mul_le_mul_left c hin
      rw [List.drop_append_of_le_length (by rw [hlen]; omega),
        List.take_append_of_le_length (by rw [List.length_drop, hlen]; omega)]
      exact ih hin
    · have hie : i = n := by omega
      subst hie
      rw [← hlen, List.drop_left, List.take_of_length_le (by rw [hf])]

/-- The index list of an annulus generated on empty buffers: its length and the
six indices of each slice. -/
theorem annulus_index_blocks (cs : ColorSource F) (d : Disc F) (hd : d.data = Data.empty)
    (hfan : isFanTest d = false) :
    (Disc.PreGLInitialize cs d).1.data.indices.length = 6 * d.slices ∧
    ∀ k, k < d.slices →
      (((Disc.PreGLInitialize cs d).1.data.indices).drop (6 * k)).take 6
        = sliceTriangles (real_number_of_slices d) k := by
  obtain ⟨-, -, -, -, hi, -⟩ := PreGLInitialize_annulus cs d hd hfan
  rw [hi]
  constructor
  · rw [length_flatMap_of_length (sliceTriangles (real_number_of_slices d)) 6
      (fun _ => rfl), List.length_range]
  · intro k hk
    exact flatMap_range_block (sliceTriangles (real_number_of_slices d)) 6
      (fun _ => rfl) d.slices k hk

/-- C6: for every partial-span annulus disc the modulo in the triangle loop
never wraps: the sample count is `slices + 1`, so for every loop step `k` below
`slices`, `(k + 1) mod (slices + 1) = k + 1`, and the six indices emitted for
slice `k` use sample `k + 1`, never sample `0`, as the next sample. -/
theorem partial_annulus_modulo_never_wraps (cs : ColorSource F) (slices : Int)
    (span outer_radius inner_radius : F) (d : Disc F)
    (h : Disc.construct slices span outer_radius inner_radius = Except.ok d)
    (hz : Scalar.eq inner_radius (Scalar.ofRat 0) = false)
    (hp : d.is_partial_span = true) :
    real_number_of_slices d = d.slices + 1 ∧
    ∀ k, k < d.slices →
      (k + 1) % real_number_of_slices d = k + 1 ∧
      (((Disc.PreGLInitialize cs d).1.data.indices).drop (6 * k)).take 6
        = [k, d.slices + 1 + k, k + 1, k + 1, d.slices + 1 + k, d.slices + 1 + (k + 1)] := by
  obtain ⟨-, -, -, hin, -, -, hd⟩ := construct_ok h
  have hfan : isFanTest d = false := by rw [isFanTest, hin]; exact hz
  obtain ⟨-, hblock⟩ := annulus_index_blocks cs d hd hfan
  have hN : real_number_of_slices d = d.slices + 1 := by simp [real_number_of_slices, hp]
  refine ⟨hN, ?_⟩
  intro k hk
  have hmod : (k + 1) % (d.slices + 1) = k + 1 := Nat.mod_eq_of_lt (by omega)
  rw [hN]
  refine ⟨hmod, ?_⟩
  rw [hblock k hk, hN, sliceTriangles, hmod]

/-- Witness of C6: the partial annulus with 3 slices, span 1 and radii 2 and
1. -/
theorem partial_annulus_modulo_never_wraps_witness :
    ∃ d : Disc ℚ, Disc.construct 3 (1 : ℚ) 2 1 = Except.ok d ∧
      real_number_of_slices d = d.slices + 1 ∧
      ∀ k, k < d.slices →
        (k + 1) % real_number_of_slices d = k + 1 ∧
        (((Disc.PreGLInitialize plainColor d).1.data.indices).drop (6 * k)).take 6
          = [k, d.slices + 1 + k, k + 1, k + 1, d.slices + 1 + k,
             d.slices + 1 + (k + 1)] :=
  ⟨_, construct_of_span_ne_zero 3 1 2 1 (by decide),
    partial_annulus_modulo_never_wraps plainColor 3 1 2 1 _
      (construct_of_span_ne_zero 3 1 2 1 (by decide)) (by decide) (by decide!)⟩

/-! ## Loops that may fail, and the writes of `RecomputeNormals` -/

theorem forLoopM_zero {σ : Type} (body : Nat → σ → Option σ) (i : Nat) (s : σ) :
    forLoopM body i 0 s = some s := rfl

theorem forLoopM_succ {σ : Type} (body : Nat → σ → Option σ) (i n : Nat) (s : σ) :
    forLoopM body i (n + 1) s = (body i s).bind (forLoopM body (i + 1) n) := rfl

/-- An invariant that every successful iteration carries forward holds at the
end of a loop that returns. -/
theorem forLoopM_preserves {σ : Type} (body : Nat → σ → Option σ) (P : Nat → σ → Prop) :
    ∀ (n i : Nat) (s s' : σ), P i s →
      (∀ k t t', i ≤ k → k < i + n → P k t → body k t = some t' → P (k + 1) t') →
      forLoopM body i n s = some s' → P (i + n) s' := by
  intro n
  induction n with
  | zero =>
    intro i s s' h0 _ h
    rw [forLoopM_zero] at h
    cases h
    exact h0
  | succ n ih =>
    intro i s s' h0 hstep h
    rw [forLoopM_succ] at h
    obtain ⟨s1, hb, hl⟩ := Option.bind_eq_some.mp h
    have h1 : P (i + 1) s1 := hstep i s s1 (Nat.le_refl _) (by omega) h0 hb
    have := ih (i + 1) s1 s' h1
      (fun k t t' hk hk' => hstep k t t' (by omega) (by omega)) hl
    have e : i + 1 + n = i + (n + 1) := by omega
    rw [e] at this
    exact this

/-- A loop returns when every iteration returns under an invariant it carries
forward. -/
theorem forLoopM_total {σ : Type} (body : Nat → σ → Option σ) (P : Nat → σ → Prop) :
    ∀ (n i : Nat) (s : σ), P i s →
      (∀ k t, i ≤ k → k < i + n → P k t → ∃ t', body k t = some t' ∧ P (k + 1) t') →
      ∃ s', forLoopM body i n s = some s' ∧ P (i + n) s' := by
  intro n
  induction n with
  | zero =>
    intro i s h0 _
    exact ⟨s, rfl, h0⟩
  | succ n ih =>
    intro i s h0 hstep
    obtain ⟨s1, hb, h1⟩ := hstep i s (Nat.le_refl _) (by omega) h0
    obtain ⟨s', hl, hP⟩ := ih (i + 1) s1 h1
      (fun k t hk hk' => hstep k t (by omega) (by omega))
    refine ⟨s', ?_, ?_⟩
    · rw [forLoopM_succ, hb]
      exact hl
    · have e : i + 1 + n = i + (n + 1) := by omega
      rw [e] at hP
      exact hP

theorem writeAt_eq_some {α : Type} (l : List α) (i : Nat) (a : α) (l' : List α) :
    writeAt l i a = some l' ↔ i < l.length ∧ l' = l.set i a := by
  unfold writeAt
  by_cases h : i < l.length
  · simp [h, eq_comm]
  · simp [h]

theorem set_eq_self_of_getElem? {α : Type} (l : List α) (i : Nat) (a : α)
    (h : l[i]? = some a) : l.set i a = l := by
  apply List.ext_getElem?
  intro j
  by_cases hj : i = j
  · subst hj
    rw [List.getElem?_set_self' , h]
    simp
  · rw [List.getElem?_set_ne hj]

/-- What `storeNormal` does when it returns: it needs `i` inside `n` and `v` and
`2 i + 1` inside `p`, and overwrites `n[i]`, `p[2 i]` and `p[2 i + 1]`. -/
theorem storeNormal_eq_some (v : List (vec3 F)) (i : Nat) (x : vec3 F) (w w' : Work F) :
    storeNormal v i x w = some w' ↔
      i < w.n.length ∧ i * 2 + 1 < w.p.length ∧ ∃ vi, v[i]? = some vi ∧
        w' = { loc := w.loc, n := w.n.set i x,
               p := (w.p.set (i * 2) vi).set (i * 2 + 1)
                      (vi.add (x.divS (Scalar.ofRat 8))) } := by
  unfold storeNormal
  simp only [Option.bind_eq_bind, Option.pure_def, Option.bind_eq_some, writeAt_eq_some,
    Nat.add_zero]
  constructor
  · rintro ⟨n1, ⟨hi, rfl⟩, vi, hvi, p1, ⟨hp0, rfl⟩, ni, hni, p2, ⟨hp1, rfl⟩, hw⟩
    rw [List.length_set] at hp1
    rw [List.getElem?_set_self hi] at hni
    cases hni
    cases hw
    exact ⟨hi, hp1, vi, hvi, rfl⟩
  · rintro ⟨hi, hp1, vi, hvi, rfl⟩
    refine ⟨_, ⟨hi, rfl⟩, vi, hvi, _, ⟨by omega, rfl⟩, x, List.getElem?_set_self hi, _,
      ⟨by rw [List.length_set]; exact hp1, rfl⟩, rfl⟩

/-- A loop whose iteration `k` computes locals and then stores a normal at `k`:
if it returns, `n` and `p` keep their lengths and their entries below the
first counter value are untouched. -/
theorem writeLoop_frame (v : List (vec3 F)) (step : Nat → Locals F → Option (Locals F))
    (val : Locals F → vec3 F) (body : Nat → Work F → Option (Work F))
    (hbody : ∀ k w, body k w =
      (step k w.loc).bind fun loc => storeNormal v k (val loc) { w with loc := loc })
    (n i : Nat) (w w' : Work F) (h : forLoopM body i n w = some w') :
    w'.n.length = w.n.length ∧ w'.p.length = w.p.length ∧
    (∀ j, j < i → w'.n[j]? = w.n[j]?) ∧ (∀ j, j < i * 2 → w'.p[j]? = w.p[j]?) := by
  refine forLoopM_preserves body
    (fun _ t => t.n.length = w.n.length ∧ t.p.length = w.p.length ∧
      (∀ j, j < i → t.n[j]? = w.n[j]?) ∧ (∀ j, j < i * 2 → t.p[j]? = w.p[j]?))
    n i w w' ⟨rfl, rfl, fun _ _ => rfl, fun _ _ => rfl⟩ ?_ h
  intro k t t' hk _ ⟨hn, hp, hnj, hpj⟩ hb
  rw [hbody] at hb
  obtain ⟨loc, -, hs⟩ := Option.bind_eq_some.mp hb
  obtain ⟨-, -, vi, -, rfl⟩ := (storeNormal_eq_some v k (val loc) _ t').mp hs
  refine ⟨by simp [hn], by simp [hp], ?_, ?_⟩
  · intro j hj
    simp only
    rw [List.getElem?_set_ne (by omega)]
    exact hnj j hj
  · intro j hj
    simp only
    rw [List.getElem?_set_ne (by omega), List.getElem?_set_ne (by omega)]
    exact hpj j hj

/-- Such a loop returns when its locals can be computed at every counter value
and the counter stays inside `v`, `n` and (doubled) `p`. -/
theorem writeLoop_total (v : List (vec3 F)) (step : Nat → Locals F → Option (Locals F))
    (val : Locals F → vec3 F) (body : Nat → Work F → Option (Work F))
    (hbody : ∀ k w, body k w =
      (step k w.loc).bind fun loc => storeNormal v k (val loc) { w with loc := loc })
    (n i : Nat) (w : Work F)
    (hstep : ∀ k, i ≤ k → k < i + n → ∀ loc, ∃ loc', step k loc = some loc')
    (hv : i + n ≤ v.length) (hn : i + n ≤ w.n.length) (hp : (i + n) * 2 ≤ w.p.length) :
    ∃ w', forLoopM body i n w = some w' := by
  have hiter : ∀ k t, i ≤ k → k < i + n →
      (t.n.length = w.n.length ∧ t.p.length = w.p.length) →
      ∃ t', body k t = some t' ∧ (t'.n.length = w.n.length ∧ t'.p.length = w.p.length) := by
    intro k t hk hk' ⟨htn, htp⟩
    obtain ⟨loc', hloc⟩ := hstep k hk hk' t.loc
    have hkv : k < v.length := by omega
    refine ⟨{ loc := loc', n := t.n.set k (val loc'),
              p := (t.p.set (k * 2) v[k]).set (k * 2 + 1)
                     (v[k].add ((val loc').divS (Scalar.ofRat 8))) }, ?_, ?_⟩
    · rw [hbody, hloc]
      exact (storeNormal_eq_some v k (val loc') _ _).mpr
        ⟨by simp only; omega, by simp only; omega, v[k], List.getElem?_eq_getElem hkv, rfl⟩
    · simp [htn, htp]
  obtain ⟨w', hw, -⟩ := forLoopM_total body
    (fun _ t => t.n.length = w.n.length ∧ t.p.length = w.p.length) n i w ⟨rfl, rfl⟩ hiter
  exact ⟨w', hw⟩

/-- Running such a loop again on the vectors it produced changes nothing. -/
theorem writeLoop_idem (v : List (vec3 F)) (step : Nat → Locals F → Option (Locals F))
    (val : Locals F → vec3 F) (body : Nat → Work F → Option (Work F))
    (hbody : ∀ k w, body k w =
      (step k w.loc).bind fun loc => storeNormal v k (val loc) { w with loc := loc }) :
    ∀ (n i : Nat) (w w' : Work F), forLoopM body i n w = some w' →
      forLoopM body i n { loc := w.loc, n := w'.n, p := w'.p } = some w' := by
  intro n
  induction n with
  | zero =>
    intro i w w' h
    rw [forLoopM_zero] at h
    cases h
    rfl
  | succ n ih =>
    intro i w w' h
    rw [forLoopM_succ] at h
    obtain ⟨w1, hb, hl⟩ := Option.bind_eq_some.mp h
    rw [hbody] at hb
    obtain ⟨loc, hloc, hs⟩ := Option.bind_eq_some.mp hb
    obtain ⟨hin, hip, vi, hvi, rfl⟩ := (storeNormal_eq_some v i (val loc) _ w1).mp hs
    obtain ⟨hn', hp', hnj, hpj⟩ := writeLoop_frame v step val body hbody n (i + 1) _ w' hl
    simp only [List.length_set] at hin hip hn' hp' hnj hpj
    have e1 : w'.n[i]? = some (val loc) := by
      rw [hnj i (by omega)]
      exact List.getElem?_set_self hin
    have e2 : w'.p[i * 2]? = some vi := by
      rw [hpj (i * 2) (by omega), List.getElem?_set_ne (by omega)]
      exact List.getElem?_set_self (by omega)
    have e3 : w'.p[i * 2 + 1]? = some (vi.add ((val loc).divS (Scalar.ofRat 8))) := by
      rw [hpj (i * 2 + 1) (by omega)]
      exact List.getElem?_set_self (by rw [List.length_set]; exact hip)
    have hstore : storeNormal v i (val loc) { loc := loc, n := w'.n, p := w'.p }
        = some { loc := loc, n := w'.n, p := w'.p } := by
      refine (storeNormal_eq_some v i (val loc) _ _).mpr
        ⟨by simp only; omega, by simp only; omega, vi, hvi, ?_⟩
      simp only
      rw [set_eq_self_of_getElem? _ _ _ e1, set_eq_self_of_getElem? _ _ _ e2,
        set_eq_self_of_getElem? _ _ _ e3]
    rw [forLoopM_succ, hbody]
    simp only [hloc, Option.some_bind, hstore]
    exact ih (i + 1) _ w' hl

/-! ## Every subscript of `RecomputeNormals` stays in range -/

theorem usub_of_le (a b : Nat) (h : b ≤ a) : usub a b = a - b := by
  simp [usub, h]

theorem fanRingBody_eq (v : List (vec3 F)) (b : Bool) (k : Nat) (w : Work F) :
    fanRingBody v b k w =
      (fanRingLocals v b k w.loc).bind fun loc =>
        storeNormal v k (loc.sum.neg.divS (Scalar.ofRat (loc.points : ℚ)))
          { w with loc := loc } := rfl

theorem annulusBody_eq (v : List (vec3 F)) (slices k : Nat) (w : Work F) :
    annulusBody v true slices k w =
      (annulusLocals v slices k w.loc).bind fun loc =>
        storeNormal v k (loc.sum.neg.divS loc.denominator) { w with loc := loc } := rfl

/-- The centre loop reads inside `v` at every counter value below
`v.size() - 1`. -/
theorem fanCentreBody_total (v : List (vec3 F)) (b : Bool) (k : Nat) (loc : Locals F)
    (hk : k + 1 < v.length) : ∃ loc', fanCentreBody v b k loc = some loc' := by
  have h0 : 0 < v.length := by omega
  have h1 : 1 < v.length := by omega
  have hu : usub v.length 2 = v.length - 2 := usub_of_le _ _ (by omega)
  unfold fanCentreBody
  rw [hu]
  by_cases hne : k = v.length - 2
  · cases b <;>
      simp [hne, List.getElem?_eq_getElem h0, List.getElem?_eq_getElem h1,
        List.getElem?_eq_getElem (hne ▸ hk)]
  · have hk2 : k + 2 < v.length := by omega
    simp [hne, List.getElem?_eq_getElem h0, List.getElem?_eq_getElem hk,
      List.getElem?_eq_getElem hk2]

theorem getElem?_some_of_lt {α : Type} (l : List α) (j : Nat) (h : j < l.length) :
    ∃ a, l[j]? = some a := ⟨l[j], List.getElem?_eq_getElem h⟩

/-- The ring loop of the fan reads inside `v` at every counter value from `1`
to `v.size() - 1`. -/
theorem fanRingLocals_total (v : List (vec3 F)) (b : Bool) (k : Nat) (loc : Locals F)
    (hk1 : 1 ≤ k) (hk : k < v.length) : ∃ loc', fanRingLocals v b k loc = some loc' := by
  have hu : usub v.length 1 = v.length - 1 := usub_of_le _ _ (by omega)
  obtain ⟨vk, hvk⟩ := getElem?_some_of_lt v k hk
  obtain ⟨v0, hv0⟩ := getElem?_some_of_lt v 0 (by omega)
  obtain ⟨vn, hvn⟩ := getElem?_some_of_lt v (if k = usub v.length 1 then 1 else k + 1)
    (by rw [hu]; split <;> omega)
  obtain ⟨vp, hvp⟩ := getElem?_some_of_lt v (usub (if k = 1 then v.length else k) 1)
    (by split <;> rw [usub_of_le _ _ (by omega)] <;> omega)
  unfold fanRingLocals
  simp only [hvk, hv0, hvn, hvp, Option.bind_eq_bind, Option.pure_def, Option.some_bind,
    pure, bind]
  split_ifs <;> exact ⟨_, rfl⟩

/-- The loop of the partial annulus reads inside `v` at every counter value
below `slices` when `v` holds at least `2 * slices` vertices. -/
theorem annulusLocals_total (v : List (vec3 F)) (slices k : Nat) (loc : Locals F)
    (hk : k < slices) (hv : 2 * slices ≤ v.length) :
    ∃ loc', annulusLocals v slices k loc = some loc' := by
  obtain ⟨vk, hvk⟩ := getElem?_some_of_lt v k (by omega)
  obtain ⟨vk1, hvk1⟩ := getElem?_some_of_lt v (k + 1) (by omega)
  obtain ⟨vks, hvks⟩ := getElem?_some_of_lt v (k + slices) (by omega)
  obtain ⟨vks1, hvks1⟩ := getElem?_some_of_lt v (k + slices - 1) (by omega)
  obtain ⟨vkm, hvkm⟩ := getElem?_some_of_lt v (k - 1) (by omega)
  unfold annulusLocals
  simp only [hvk, hvk1, hvks, hvks1, hvkm, Option.bind_eq_bind, Option.pure_def,
    Option.some_bind, pure, bind]
  split_ifs <;> exact ⟨_, rfl⟩

theorem forLoopM_pure {σ : Type} (n i : Nat) (s : σ) :
    forLoopM (fun _ t => some t) i n s = some s := by
  induction n generalizing i with
  | zero => rfl
  | succ n ih => rw [forLoopM_succ]; exact ih (i + 1)

theorem annulusBody_false (v : List (vec3 F)) (slices : Nat) :
    annulusBody v false slices = fun _ t => some t := by
  funext k w
  simp [annulusBody]

/-- The vectors `n` and `p` keep their lengths through `RecomputeNormals`. -/
theorem recomputeWork_lengths (fan b : Bool) (slices : Nat) (v n p : List (vec3 F))
    (w : Work F) (h : recomputeWork fan b slices v n p = some w) :
    w.n.length = n.length ∧ w.p.length = p.length := by
  unfold recomputeWork at h
  cases fan
  · simp only [Bool.false_eq_true, if_false] at h
    cases b
    · rw [annulusBody_false, forLoopM_pure] at h
      cases h
      exact ⟨rfl, rfl⟩
    · obtain ⟨h1, h2, -⟩ := writeLoop_frame v (annulusLocals v slices)
        (fun loc => loc.sum.neg.divS loc.denominator) _ (annulusBody_eq v slices) _ _ _ _ h
      exact ⟨h1, h2⟩
  · simp only [if_true, Option.bind_eq_bind, Option.bind_eq_some] at h
    obtain ⟨loc, -, w2, hs, hl⟩ := h
    obtain ⟨-, -, vi, -, rfl⟩ := (storeNormal_eq_some v 0 _ _ w2).mp hs
    obtain ⟨h1, h2, -⟩ := writeLoop_frame v (fanRingLocals v b)
      (fun loc => loc.sum.neg.divS (Scalar.ofRat (loc.points : ℚ))) _ (fanRingBody_eq v b)
      _ _ _ _ hl
    simp only [List.length_set] at h1 h2
    exact ⟨h1, h2⟩

/-- For a fan `RecomputeNormals` returns as soon as there is a vertex and `n`
and `p` are as long as the vertices and twice as long. -/
theorem recomputeWork_total_fan (b : Bool) (slices : Nat) (v n p : List (vec3 F))
    (hv : 1 ≤ v.length) (hn : v.length ≤ n.length) (hp : 2 * v.length ≤ p.length) :
    ∃ w, recomputeWork true b slices v n p = some w := by
  have hu : usub v.length 1 = v.length - 1 := usub_of_le _ _ hv
  obtain ⟨loc, hloc, -⟩ := forLoopM_total (fanCentreBody v b) (fun _ _ => True)
    (v.length - 1) 0 Locals.init trivial
    (fun k t _ hk _ => by
      obtain ⟨t', ht'⟩ := fanCentreBody_total v b k t (by omega)
      exact ⟨t', ht', trivial⟩)
  obtain ⟨v0, hv0⟩ := getElem?_some_of_lt v 0 (by omega)
  have hstore := (storeNormal_eq_some v 0
    (loc.sum.neg.divS (Scalar.ofRat (centreDivisor v b : ℚ)))
    { loc := loc, n := n, p := p } _).mpr
    ⟨by simp only; omega, by simp only; omega, v0, hv0, rfl⟩
  obtain ⟨w, hw⟩ := writeLoop_total v (fanRingLocals v b)
    (fun loc => loc.sum.neg.divS (Scalar.ofRat (loc.points : ℚ))) _ (fanRingBody_eq v b)
    (v.length - 1) 1
    { loc := loc, n := n.set 0 (loc.sum.neg.divS (Scalar.ofRat (centreDivisor v b : ℚ))),
      p := (p.set (0 * 2) v0).set (0 * 2 + 1)
        (v0.add ((loc.sum.neg.divS (Scalar.ofRat (centreDivisor v b : ℚ))).divS
          (Scalar.ofRat 8))) }
    (fun k hk hk' t => fanRingLocals_total v b k t hk (by omega))
    (by omega) (by simp only [List.length_set]; omega)
    (by simp only [List.length_set]; omega)
  refine ⟨w, ?_⟩
  unfold recomputeWork
  simp only [if_true, Option.bind_eq_bind, hu, hloc, Option.some_bind, hstore]
  exact hw

/-- For an annulus `RecomputeNormals` returns as soon as there are at least
`2 * slices` vertices and `n` and `p` are as long as the vertices and twice as
long. -/
theorem recomputeWork_total_annulus (b : Bool) (slices : Nat) (v n p : List (vec3 F))
    (hv : 2 * slices ≤ v.length) (hn : v.length ≤ n.length) (hp : 2 * v.length ≤ p.length) :
    ∃ w, recomputeWork false b slices v n p = some w := by
  unfold recomputeWork
  simp only [Bool.false_eq_true, if_false]
  cases b
  · rw [annulusBody_false, forLoopM_pure]
    exact ⟨_, rfl⟩
  · exact writeLoop_total v (annulusLocals v slices)
      (fun loc => loc.sum.neg.divS loc.denominator) _ (annulusBody_eq v slices) slices 0 _
      (fun k _ hk t => annulusLocals_total v slices k t (by omega) hv)
      (by omega) (by simp only; omega) (by simp only; omega)

/-- Running `RecomputeNormals` again on the vectors it produced returns the
same vectors. -/
theorem recomputeWork_idem (fan b : Bool) (slices : Nat) (v n p : List (vec3 F))
    (w : Work F) (h : recomputeWork fan b slices v n p = some w) :
    recomputeWork fan b slices v w.n w.p = some w := by
  unfold recomputeWork at h ⊢
  cases fan
  · simp only [Bool.false_eq_true, if_false] at h ⊢
    cases b
    · rw [annulusBody_false, forLoopM_pure] at h ⊢
      cases h
      rfl
    · exact writeLoop_idem v (annulusLocals v slices)
        (fun loc => loc.sum.neg.divS loc.denominator) _ (annulusBody_eq v slices) _ _ _ _ h
  · simp only [if_true, Option.bind_eq_bind, Option.bind_eq_some] at h
    obtain ⟨loc, hloc, w2, hs, hl⟩ := h
    obtain ⟨hin, hip, v0, hv0, rfl⟩ := (storeNormal_eq_some v 0 _ _ w2).mp hs
    obtain ⟨hn', hp', hnj, hpj⟩ := writeLoop_frame v (fanRingLocals v b)
      (fun loc => loc.sum.neg.divS (Scalar.ofRat (loc.points : ℚ))) _ (fanRingBody_eq v b)
      _ _ _ _ hl
    simp only [List.length_set] at hin hip hn' hp' hnj hpj
    have e1 := hnj 0 (by omega)
    have e2 := hpj 0 (by omega)
    have e3 := hpj 1 (by omega)
    rw [List.getElem?_set_self hin] at e1
    rw [List.getElem?_set_ne (by omega), List.getElem?_set_self (by omega)] at e2
    rw [List.getElem?_set_self (by rw [List.length_set]; omega)] at e3
    have hstore : storeNormal v 0 (loc.sum.neg.divS (Scalar.ofRat (centreDivisor v b : ℚ)))
        { loc := loc, n := w.n, p := w.p } = some { loc := loc, n := w.n, p := w.p } := by
      refine (storeNormal_eq_some v 0 _ _ _).mpr
        ⟨by simp only; omega, by simp only; omega, v0, hv0, ?_⟩
      simp only
      rw [set_eq_self_of_getElem? _ _ _ e1, set_eq_self_of_getElem? _ _ _ e2,
        set_eq_self_of_getElem? _ _ _ e3]
    simp only [if_true, Option.bind_eq_bind, hloc, Option.some_bind, hstore]
    exact writeLoop_idem v (fanRingLocals v b)
      (fun loc => loc.sum.neg.divS (Scalar.ofRat (loc.points : ℚ))) _ (fanRingBody_eq v b)
      _ _ _ _ hl

/-! ## `RecomputeNormals` on the object -/

/-- What `PreGLInitialize` leaves of the members: only `is_fan` and `data`
change. -/
theorem PreGLInitialize_members (cs : ColorSource F) (d : Disc F) :
    (Disc.PreGLInitialize cs d).1.slices = d.slices ∧
    (Disc.PreGLInitialize cs d).1.span = d.span ∧
    (Disc.PreGLInitialize cs d).1.inner_radius = d.inner_radius ∧
    (Disc.PreGLInitialize cs d).1.outer_radius = d.outer_radius ∧
    (Disc.PreGLInitialize cs d).1.is_partial_span = d.is_partial_span ∧
    (Disc.PreGLInitialize cs d).1.is_fan = isFanTest d :=
  ⟨rfl, rfl, rfl, rfl, rfl, rfl⟩

/-- A generated state, also after an edit of its vertex positions, has the
sizes of a generated one. -/
theorem wellSized_generated (cs : ColorSource F) (d : Disc F) (hd : d.data = Data.empty)
    (vs : List (vec3 F)) (hvs : vs.length = (Disc.PreGLInitialize cs d).1.data.vertices.length) :
    WellSized (setVertices (Disc.PreGLInitialize cs d).1 vs) := by
  obtain ⟨hv, hn, ht, hp⟩ := PreGLInitialize_lengths cs d hd
  refine ⟨?_, ?_, ?_⟩
  · show vs.length = _
    rw [hvs, hv]
    rfl
  · show (Disc.PreGLInitialize cs d).1.data.normals.length = vs.length
    rw [hvs, hv, hn]
  · show (Disc.PreGLInitialize cs d).1.data.normal_visualization_coordinates.length
      = 2 * vs.length
    rw [hvs, hv, hp]

/-- On a state with the sizes of a generated one every subscript of
`RecomputeNormals` is in range: the routine returns. -/
theorem RecomputeNormals_total (g : Disc F) (hg : WellSized g) :
    ∃ g', Disc.RecomputeNormals g = some g' := by
  obtain ⟨hv, hn, hp⟩ := hg
  unfold vertexCount isFanTest real_number_of_slices at hv
  unfold Disc.RecomputeNormals
  cases hfan : Scalar.eq g.inner_radius (Scalar.ofRat 0)
  · rw [hfan] at hv
    simp only [Bool.false_eq_true, if_false] at hv
    obtain ⟨w, hw⟩ := recomputeWork_total_annulus g.is_partial_span g.slices
      g.data.vertices g.data.normals g.data.normal_visualization_coordinates
      (by rw [hv]; omega) (by omega) (by omega)
    exact ⟨_, by rw [hw]; rfl⟩
  · rw [hfan] at hv
    simp only [if_true] at hv
    obtain ⟨w, hw⟩ := recomputeWork_total_fan g.is_partial_span g.slices
      g.data.vertices g.data.normals g.data.normal_visualization_coordinates
      (by omega) (by omega) (by omega)
    exact ⟨_, by rw [hw]; rfl⟩

/-- What `RecomputeNormals` leaves: the members and every buffer but `normals`
and `normal_visualization_coordinates`, and the lengths of these two. -/
theorem RecomputeNormals_frame (g g' : Disc F) (h : Disc.RecomputeNormals g = some g') :
    g'.slices = g.slices ∧ g'.span = g.span ∧ g'.inner_radius = g.inner_radius ∧
    g'.outer_radius = g.outer_radius ∧ g'.is_partial_span = g.is_partial_span ∧
    g'.is_fan = g.is_fan ∧
    g'.data.vertices = g.data.vertices ∧ g'.data.indices = g.data.indices ∧
    g'.data.textures = g.data.textures ∧ g'.data.colors = g.data.colors ∧
    g'.data.vbackup = g.data.vbackup ∧
    g'.data.normals.length = g.data.normals.length ∧
    g'.data.normal_visualization_coordinates.length
      = g.data.normal_visualization_coordinates.length := by
  unfold Disc.RecomputeNormals at h
  obtain ⟨w, hw, rfl⟩ := Option.map_eq_some'.mp h
  obtain ⟨h1, h2⟩ := recomputeWork_lengths _ _ _ _ _ _ w hw
  exact ⟨rfl, rfl, rfl, rfl, rfl, rfl, rfl, rfl, rfl, rfl, rfl, h1, h2⟩

/-- Running `RecomputeNormals` on its own result returns that result. -/
theorem RecomputeNormals_idem (g g' : Disc F) (h : Disc.RecomputeNormals g = some g') :
    Disc.RecomputeNormals g' = some g' := by
  unfold Disc.RecomputeNormals at h
  obtain ⟨w, hw, rfl⟩ := Option.map_eq_some'.mp h
  have h2 := recomputeWork_idem _ _ _ _ _ _ w hw
  unfold Disc.RecomputeNormals
  simp only [h2, Option.map_some']

/-- C7: for every generated disc state, fan or annulus, partial or full span,
`RecomputeNormals` returns and leaves vertices, indices, textures, colors and
the vertex snapshot exactly as they were, and leaves the lengths of normals
and normal visualization coordinates unchanged. -/
theorem RecomputeNormals_preserves_geometry (cs : ColorSource F) (slices : Int)
    (span outer_radius inner_radius : F) (d : Disc F)
    (h : Disc.construct slices span outer_radius inner_radius = Except.ok d) :
    ∃ g', Disc.RecomputeNormals (Disc.PreGLInitialize cs d).1 = some g' ∧
      g'.data.vertices = (Disc.PreGLInitialize cs d).1.data.vertices ∧
      g'.data.indices = (Disc.PreGLInitialize cs d).1.data.indices ∧
      g'.data.textures = (Disc.PreGLInitialize cs d).1.data.textures ∧
      g'.data.colors = (Disc.PreGLInitialize cs d).1.data.colors ∧
      g'.data.vbackup = (Disc.PreGLInitialize cs d).1.data.vbackup ∧
      g'.data.normals.length = (Disc.PreGLInitialize cs d).1.data.normals.length ∧
      g'.data.normal_visualization_coordinates.length
        = (Disc.PreGLInitialize cs d).1.data.normal_visualization_coordinates.length := by
  have hsized := wellSized_generated cs d (construct_ok h).2.2.2.2.2.2
    (Disc.PreGLInitialize cs d).1.data.vertices rfl
  obtain ⟨g', hg'⟩ := RecomputeNormals_total _ hsized
  have hfr := RecomputeNormals_frame _ g' hg'
  exact ⟨g', hg', hfr.2.2.2.2.2.2⟩

/-- Witness of C7: the fan with 4 slices, span 1 and outer radius 2. -/
theorem RecomputeNormals_preserves_geometry_witness :
    ∃ d : Disc ℚ, Disc.construct 4 (1 : ℚ) 2 0 = Except.ok d ∧
    ∃ g', Disc.RecomputeNormals (Disc.PreGLInitialize plainColor d).1 = some g' ∧
      g'.data.vertices = (Disc.PreGLInitialize plainColor d).1.data.vertices ∧
      g'.data.indices = (Disc.PreGLInitialize plainColor d).1.data.indices ∧
      g'.data.textures = (Disc.PreGLInitialize plainColor d).1.data.textures ∧
      g'.data.colors = (Disc.PreGLInitialize plainColor d).1.data.colors ∧
      g'.data.vbackup = (Disc.PreGLInitialize plainColor d).1.data.vbackup ∧
      g'.data.normals.length = (Disc.PreGLInitialize plainColor d).1.data.normals.length ∧
      g'.data.normal_visualization_coordinates.length
        = (Disc.PreGLInitialize plainColor d).1.data.normal_visualization_coordinates.length :=
  ⟨_, construct_of_span_ne_zero 4 1 2 0 (by decide),
    RecomputeNormals_preserves_geometry plainColor 4 1 2 0 _
      (construct_of_span_ne_zero 4 1 2 0 (by decide))⟩

/-! ## Divisors -/

/-- The wedge counter `points` after the locals of a ring vertex of the fan are
computed: one for each of the two branches taken. -/
theorem fanRingLocals_points (v : List (vec3 F)) (b : Bool) (i : Nat) (loc loc' : Locals F)
    (h : fanRingLocals v b i loc = some loc') :
    loc'.points =
      (if (i ≠ usub v.length 1 && b) || !b then 1 else 0) +
      (if (i ≠ 1 && b) || !b then 1 else 0) := by
  unfold fanRingLocals at h
  cases hc1 : ((decide (i ≠ usub v.length 1) && b) || !b) <;>
    cases hc2 : ((decide (i ≠ 1) && b) || !b) <;>
    simp only [hc1, hc2, Bool.false_eq_true, if_false, if_true, Option.bind_eq_bind,
      Option.pure_def, pure, bind, Option.bind_eq_some, Option.some.injEq,
      Option.some_bind] at h
  · subst h
    rfl
  · obtain ⟨a', -, b', -, c', -, rfl⟩ := h
    rfl
  · obtain ⟨a, -, b1, -, c, -, rfl⟩ := h
    rfl
  · obtain ⟨a, -, b1, -, c, -, a', -, b', -, c', -, rfl⟩ := h
    rfl

/-- The sizes of a generated fan: the fan has `slices + 1` vertices when the
span is full and `slices + 2` when it is partial. -/
theorem fan_vertex_count (cs : ColorSource F) (d : Disc F) (hd : d.data = Data.empty)
    (hfan : isFanTest d = true) :
    (Disc.PreGLInitialize cs d).1.data.vertices.length
      = d.slices + (if d.is_partial_span then 2 else 1) := by
  rw [(PreGLInitialize_lengths cs d hd).1, vertexCount, hfan, real_number_of_slices]
  cases d.is_partial_span <;> simp <;> omega

/-- The rational scalars satisfy the comparison laws. -/
theorem comparisonLaws_rat : ComparisonLaws ℚ where
  lt_irrefl a := by simp [Scalar.lt]
  lt_asymm a b h := by
    simp only [Scalar.lt, decide_eq_true_eq, decide_eq_false_iff_not, not_lt] at h ⊢
    exact le_of_lt h
  lt_ne a b h := by
    simp only [Scalar.lt, Scalar.eq, decide_eq_true_eq, decide_eq_false_iff_not] at h ⊢
    exact ne_of_lt h
  abs_pos_of_lt a b _ h := by
    simp only [Scalar.lt, Scalar.eq, Scalar.ofRat, Scalar.abs, decide_eq_true_eq,
      decide_eq_false_iff_not] at h ⊢
    exact abs_pos.mpr h
  full_span_eq_self := by simp [Scalar.eq]
  full_span_pos := by
    simp only [Scalar.lt, Scalar.ofRat, full_span, Scalar.pi, decide_eq_true_eq]
    norm_num

/-- The scalars with a not-a-number satisfy the comparison laws. -/
theorem comparisonLaws_ratNaN : ComparisonLaws RatNaN where
  lt_irrefl a := by
    cases a <;> simp [Scalar.lt, RatNaN.cmp]
  lt_asymm a b h := by
    cases a <;> cases b <;>
      simp only [Scalar.lt, RatNaN.cmp, decide_eq_true_eq, decide_eq_false_iff_not, not_lt,
        Bool.false_eq_true] at h ⊢
    exact le_of_lt h
  lt_ne a b h := by
    cases a <;> cases b <;>
      simp only [Scalar.lt, Scalar.eq, RatNaN.cmp, decide_eq_true_eq, decide_eq_false_iff_not,
        Bool.false_eq_true] at h ⊢
    exact ne_of_lt h
  abs_pos_of_lt a b hlt h := by
    cases a with
    | nan => cases b <;> simp [Scalar.lt, Scalar.abs, RatNaN.map, RatNaN.cmp] at hlt
    | num q =>
      simp only [Scalar.lt, Scalar.eq, Scalar.ofRat, Scalar.abs, RatNaN.map, RatNaN.cmp,
        decide_eq_true_eq, decide_eq_false_iff_not] at h ⊢
      exact abs_pos.mpr h
  full_span_eq_self := by decide!
  full_span_pos := by decide!

theorem ofRat_real (q : ℚ) : (Scalar.ofRat q : ℝ) = (q : ℝ) := rfl

theorem identity_real : (mat4.identity : mat4 ℝ) = zRotation 0 := by
  simp [mat4.identity, zRotation, f0, f1, ofRat_real]

theorem normalize_zAxis_real : glm.normalize (zAxis : vec3 ℝ) = ⟨0, 0, 1⟩ := by
  simp [glm.normalize, zAxis, dot, vec3.mulS, f0, f1, ofRat_real, Scalar.sqrt]

theorem rotate_zRotation (a t : ℝ) : rotate (zRotation a) t zAxis = zRotation (a + t) := by
  simp only [rotate, normalize_zAxis_real]
  simp only [zRotation, vec3.mulS, vec4.mulS, vec4.add, f0, f1,
    ofRat_real, Scalar.cos, Scalar.sin, Real.cos_add, Real.sin_add]
  simp
  refine ⟨?_, ?_⟩ <;> ring

/-- Over the reals the matrix after `k` ring samples is the rotation about `z`
by `k * theta`. -/
theorem rotStep_iterate_real (d : Disc ℝ) (k : Nat) :
    (rotStep d)^[k] mat4.identity = zRotation (k * theta d) := by
  induction k with
  | zero => simp [identity_real]
  | succ k ih =>
    rw [Function.iterate_succ_apply', ih, rotStep, rotate_zRotation]
    congr 1
    push_cast
    ring

/-- Over the reals the `k`-th sample of the ring of radius `r` is the point
`(r, 0, 0)` rotated about the `z` axis by `k * theta`. -/
theorem ringSample_real (d : Disc ℝ) (r : ℝ) (k : Nat) :
    ringSample d r k = ⟨r * Real.cos (k * theta d), r * Real.sin (k * theta d), 0⟩ := by
  rw [ringSample, rotStep_iterate_real]
  simp [zRotation, mat4.mulVec, vec4.mulS, vec4.add, vec4.toVec3, f0, f1, ofRat_real,
    mul_comm]

/-- Over the reals a ring sample lies at distance `|r|` from the origin. -/
theorem distance_ringSample_real (d : Disc ℝ) (r : ℝ) (k : Nat) :
    distanceFromOrigin (ringSample d r k) = |r| := by
  rw [ringSample_real, distanceFromOrigin, dot]
  show Real.sqrt _ = _
  have h : r * Real.cos (k * theta d) * (r * Real.cos (k * theta d)) +
      r * Real.sin (k * theta d) * (r * Real.sin (k * theta d)) + 0 * 0 = r ^ 2 := by
    have := Real.sin_sq_add_cos_sq (k * theta d)
    nlinarith [this]
  rw [h, Real.sqrt_sq_eq_abs]

theorem theta_real (d : Disc ℝ) : theta d = d.span / (d.slices : ℝ) := by
  simp [theta, thetaDivisor, ofRat_real]

/-- C11: over exact real arithmetic, for every disc with at least one slice and
non-negative radii, the `k`-th sample of a ring of radius `r` is `r` rotated
about the `z` axis by `k * span / slices`, with `z = 0`; every generated
outer-ring vertex lies at distance `outer_radius` from the origin and every
inner-ring vertex at distance `inner_radius`; the centre of a fan, vertex 0, is
the only vertex that is not a ring sample. -/
theorem ring_vertices_on_circles (cs : ColorSource ℝ) (slices : Int)
    (span outer_radius inner_radius : ℝ) (d : Disc ℝ)
    (h : Disc.construct slices span outer_radius inner_radius = Except.ok d)
    (_hs : 1 ≤ d.slices) (ho : 0 ≤ outer_radius) (hi : 0 ≤ inner_radius) :
    (Scalar.eq inner_radius (Scalar.ofRat 0) = true →
      (Disc.PreGLInitialize cs d).1.data.vertices.length = 1 + effectiveSampleCount d ∧
      (Disc.PreGLInitialize cs d).1.data.vertices[0]? = some vec3.zero ∧
      ∀ k, k < effectiveSampleCount d →
        ∃ x, (Disc.PreGLInitialize cs d).1.data.vertices[1 + k]? = some x ∧
          x = ⟨outer_radius * Real.cos (k * (d.span / d.slices)),
               outer_radius * Real.sin (k * (d.span / d.slices)), 0⟩ ∧
          distanceFromOrigin x = outer_radius) ∧
    (Scalar.eq inner_radius (Scalar.ofRat 0) = false →
      (Disc.PreGLInitialize cs d).1.data.vertices.length = 2 * effectiveSampleCount d ∧
      ∀ k, k < effectiveSampleCount d →
        (∃ x, (Disc.PreGLInitialize cs d).1.data.vertices[k]? = some x ∧
          x = ⟨outer_radius * Real.cos (k * (d.span / d.slices)),
               outer_radius * Real.sin (k * (d.span / d.slices)), 0⟩ ∧
          distanceFromOrigin x = outer_radius) ∧
        (∃ y, (Disc.PreGLInitialize cs d).1.data.vertices[effectiveSampleCount d + k]?
            = some y ∧
          y = ⟨inner_radius * Real.cos (k * (d.span / d.slices)),
               inner_radius * Real.sin (k * (d.span / d.slices)), 0⟩ ∧
          distanceFromOrigin y = inner_radius)) := by
  obtain ⟨-, -, -, hin, hout, -, hd⟩ := construct_ok h
  rw [← real_number_of_slices_eq, ← theta_real]
  constructor
  · intro hz
    have hfan : isFanTest d = true := by rw [isFanTest, hin]; exact hz
    obtain ⟨hv, -⟩ := PreGLInitialize_fan cs d hd hfan
    rw [hv, hout]
    refine ⟨by simp [Nat.add_comm], by simp, ?_⟩
    intro k hk
    refine ⟨ringSample d outer_radius k, ?_, ringSample_real d outer_radius k, ?_⟩
    · rw [Nat.add_comm 1 k, List.getElem?_cons_succ, List.getElem?_map,
        List.getElem?_range hk]
      rfl
    · rw [distance_ringSample_real, abs_of_nonneg ho]
  · intro hz
    have hfan : isFanTest d = false := by rw [isFanTest, hin]; exact hz
    obtain ⟨hv, -⟩ := PreGLInitialize_annulus cs d hd hfan
    rw [hv, hout, hin]
    refine ⟨by simp [Nat.two_mul], ?_⟩
    intro k hk
    constructor
    · refine ⟨ringSample d outer_radius k, ?_, ringSample_real d outer_radius k, ?_⟩
      · rw [List.getElem?_append_left (by simpa using hk), List.getElem?_map,
          List.getElem?_range hk]
        rfl
      · rw [distance_ringSample_real, abs_of_nonneg ho]
    · refine ⟨ringSample d inner_radius k, ?_, ringSample_real d inner_radius k, ?_⟩
      · rw [List.getElem?_append_right (by simp), List.getElem?_map]
        simp [List.getElem?_range hk]
      · rw [distance_ringSample_real, abs_of_nonneg hi]

/-- Witness of C11: the annulus with 4 slices, span 1 and radii 2 and 1 over the
reals. -/
theorem ring_vertices_on_circles_witness :
    ∃ d : Disc ℝ, Disc.construct 4 (1 : ℝ) 2 1 = Except.ok d ∧
      (Disc.PreGLInitialize plainColorReal d).1.data.vertices.length
        = 2 * effectiveSampleCount d ∧
      ∀ k, k < effectiveSampleCount d →
        (∃ x, (Disc.PreGLInitialize plainColorReal d).1.data.vertices[k]? = some x ∧
          x = ⟨2 * Real.cos (k * (d.span / d.slices)),
               2 * Real.sin (k * (d.span / d.slices)), 0⟩ ∧
          distanceFromOrigin x = 2) ∧
        (∃ y, (Disc.PreGLInitialize plainColorReal d).1.data.vertices[
              effectiveSampleCount d + k]? = some y ∧
          y = ⟨1 * Real.cos (k * (d.span / d.slices)),
               1 * Real.sin (k * (d.span / d.slices)), 0⟩ ∧
          distanceFromOrigin y = 1) :=
  ⟨_, construct_of_span_ne_zero 4 1 2 1 (by simp [Scalar.eq, ofRat_real]),
    (ring_vertices_on_circles plainColorReal 4 1 2 1 _
      (construct_of_span_ne_zero 4 1 2 1 (by simp [Scalar.eq, ofRat_real]))
      (by decide) (by norm_num) (by norm_num)).2 (by simp [Scalar.eq, ofRat_real])⟩

theorem ringSample_ne_zero_real (d : Disc ℝ) (r : ℝ) (k : Nat) (hr : r ≠ 0) :
    ringSample d r k ≠ vec3.zero := by
  intro hzero
  have hdist := distance_ringSample_real d r k
  rw [hzero] at hdist
  have h0 : distanceFromOrigin (vec3.zero : vec3 ℝ) = 0 := by
    simp [distanceFromOrigin, dot, vec3.zero, f0, ofRat_real, Scalar.sqrt]
  rw [h0] at hdist
  exact hr (abs_eq_zero.mp hdist.symm)

/-- C12, amended: over exact real arithmetic, for every annulus disc
(`inner_radius != 0`) whose outer radius is not zero, no generated vertex is at
the origin. -/
theorem annulus_vertices_off_origin (cs : ColorSource ℝ) (slices : Int)
    (span outer_radius inner_radius : ℝ) (d : Disc ℝ)
    (h : Disc.construct slices span outer_radius inner_radius = Except.ok d)
    (hz : Scalar.eq inner_radius (Scalar.ofRat 0) = false)
    (ho : outer_radius ≠ 0) :
    ∀ x, x ∈ (Disc.PreGLInitialize cs d).1.data.vertices → x ≠ vec3.zero := by
  obtain ⟨-, -, -, hin, hout, -, hd⟩ := construct_ok h
  have hfan : isFanTest d = false := by rw [isFanTest, hin]; exact hz
  have hi : inner_radius ≠ 0 := by
    intro hi0
    rw [hi0] at hz
    simp [Scalar.eq, ofRat_real] at hz
  obtain ⟨hv, -⟩ := PreGLInitialize_annulus cs d hd hfan
  rw [hv, hout, hin]
  intro x hx
  rcases List.mem_append.mp hx with hx | hx
  · obtain ⟨k, -, rfl⟩ := List.mem_map.mp hx
    exact ringSample_ne_zero_real d outer_radius k ho
  · obtain ⟨k, -, rfl⟩ := List.mem_map.mp hx
    exact ringSample_ne_zero_real d inner_radius k hi

/-- Witness of C12 as amended: the annulus with 4 slices, span 1 and radii 2
and 1 over the reals. -/
theorem annulus_vertices_off_origin_witness :
    ∃ d : Disc ℝ, Disc.construct 4 (1 : ℝ) 2 1 = Except.ok d ∧
      ∀ x, x ∈ (Disc.PreGLInitialize plainColorReal d).1.data.vertices → x ≠ vec3.zero :=
  ⟨_, construct_of_span_ne_zero 4 1 2 1 (by simp [Scalar.eq, ofRat_real]),
    annulus_vertices_off_origin plainColorReal 4 1 2 1 _
      (construct_of_span_ne_zero 4 1 2 1 (by simp [Scalar.eq, ofRat_real]))
      (by simp [Scalar.eq, ofRat_real]) (by norm_num)⟩

/-- C12 fails as stated: the annulus constructed with slices 3, a full span,
outer radius 0 and inner radius 1 has non-negative radii that are not both
zero, and its first vertex is at the origin. -/
theorem annulus_vertex_at_origin :
    ∃ d : Disc ℚ, Disc.construct 3 (full_span : ℚ) 0 1 = Except.ok d ∧
      Scalar.eq (1 : ℚ) (Scalar.ofRat 0) = false ∧
      (Disc.PreGLInitialize plainColor d).1.is_fan = false ∧
      (Disc.PreGLInitialize plainColor d).1.data.vertices[0]? = some vec3.zero :=
  ⟨_, construct_of_span_ne_zero 3 full_span 0 1 (by decide!), by decide, by decide!,
    by decide!⟩

/-! ## The annulus with a full span -/

/-- On an annulus with a full span `RecomputeNormals` returns the state it was
given: the body of its loop does nothing. -/
theorem RecomputeNormals_full_annulus (g : Disc F) (hfan : isFanTest g = false)
    (hp : g.is_partial_span = false) : Disc.RecomputeNormals g = some g := by
  unfold isFanTest at hfan
  have hbody : annulusBody g.data.vertices g.is_partial_span g.slices = fun _ t => some t := by
    rw [hp]
    exact annulusBody_false _ _
  unfold Disc.RecomputeNormals recomputeWork
  rw [hfan]
  simp only [Bool.false_eq_true, if_false]
  rw [hbody, forLoopM_pure]
  rfl

theorem recomputeTimes_of_fixed (g : Disc F) (hg : Disc.RecomputeNormals g = some g) (n : Nat) :
    recomputeTimes n g = some g := by
  induction n with
  | zero => rfl
  | succ n ih => rw [recomputeTimes, ih]; exact hg

/-- C13: for every full-span annulus disc `RecomputeNormals` returns the
generated state unchanged, so it changes no entry of the normals or of the
normal visualization coordinates; after generation followed by any number of
recomputations every normal is still the default `(0, 0, 1)`. -/
theorem full_annulus_normals_unchanged (cs : ColorSource F) (slices : Int)
    (span outer_radius inner_radius : F) (d : Disc F)
    (h : Disc.construct slices span outer_radius inner_radius = Except.ok d)
    (hz : Scalar.eq inner_radius (Scalar.ofRat 0) = false)
    (hp : d.is_partial_span = false) :
    Disc.RecomputeNormals (Disc.PreGLInitialize cs d).1 = some (Disc.PreGLInitialize cs d).1 ∧
    ∀ n, ∃ g', recomputeTimes n (Disc.PreGLInitialize cs d).1 = some g' ∧
      g'.data.normals = (Disc.PreGLInitialize cs d).1.data.normals ∧
      g'.data.normal_visualization_coordinates
        = (Disc.PreGLInitialize cs d).1.data.normal_visualization_coordinates ∧
      g'.data.normals.length = 2 * effectiveSampleCount d ∧
      ∀ x, x ∈ g'.data.normals → x = ⟨Scalar.ofRat 0, Scalar.ofRat 0, Scalar.ofRat 1⟩ := by
  obtain ⟨-, -, -, hin, -, -, hd⟩ := construct_ok h
  have hfan : isFanTest d = false := by rw [isFanTest, hin]; exact hz
  have hfix := RecomputeNormals_full_annulus (Disc.PreGLInitialize cs d).1 hfan hp
  refine ⟨hfix, ?_⟩
  intro n
  refine ⟨_, recomputeTimes_of_fixed _ hfix n, rfl, rfl, ?_, ?_⟩
  · rw [(PreGLInitialize_annulus cs d hd hfan).2.1, ← real_number_of_slices_eq]
    simp [Nat.two_mul]
  · intro x hx
    rw [(PreGLInitialize_annulus cs d hd hfan).2.1] at hx
    exact List.eq_of_mem_replicate hx

/-- Witness of C13: the annulus with 3 slices, a full span and radii 2 and 1. -/
theorem full_annulus_normals_unchanged_witness :
    ∃ d : Disc ℚ, Disc.construct 3 (full_span : ℚ) 2 1 = Except.ok d ∧
      Disc.RecomputeNormals (Disc.PreGLInitialize plainColor d).1
        = some (Disc.PreGLInitialize plainColor d).1 ∧
      ∀ n, ∃ g', recomputeTimes n (Disc.PreGLInitialize plainColor d).1 = some g' ∧
        g'.data.normals = (Disc.PreGLInitialize plainColor d).1.data.normals ∧
        g'.data.normal_visualization_coordinates
          = (Disc.PreGLInitialize plainColor d).1.data.normal_visualization_coordinates ∧
        g'.data.normals.length = 2 * effectiveSampleCount d ∧
        ∀ x, x ∈ g'.data.normals → x = ⟨Scalar.ofRat 0, Scalar.ofRat 0, Scalar.ofRat 1⟩ :=
  ⟨_, construct_of_span_ne_zero 3 full_span 2 1 (by decide!),
    full_annulus_normals_unchanged plainColor 3 full_span 2 1 _
      (construct_of_span_ne_zero 3 full_span 2 1 (by decide!)) (by decide) (by decide!)⟩

/-! ## The values `RecomputeNormals` writes -/

/-- A loop whose iteration `k` stores a normal `X k` that does not depend on the
locals it starts from: when it returns, every position it ran over holds its
value, and every position from the last counter value on is untouched. -/
theorem writeLoop_values (v : List (vec3 F)) (step : Nat → Locals F → Option (Locals F))
    (val : Locals F → vec3 F) (body : Nat → Work F → Option (Work F))
    (hbody : ∀ k w, body k w =
      (step k w.loc).bind fun loc => storeNormal v k (val loc) { w with loc := loc })
    (X : Nat → vec3 F) (n i : Nat)
    (hX : ∀ k loc loc', i ≤ k → k < i + n → step k loc = some loc' → val loc' = X k)
    (w w' : Work F) (h : forLoopM body i n w = some w') :
    (∀ k, i ≤ k → k < i + n →
      w'.n[k]? = some (X k) ∧
      ∃ vk, v[k]? = some vk ∧ w'.p[k * 2]? = some vk ∧
        w'.p[k * 2 + 1]? = some (vk.add ((X k).divS (Scalar.ofRat 8)))) ∧
    (∀ j, i + n ≤ j → w'.n[j]? = w.n[j]?) ∧
    (∀ j, (i + n) * 2 ≤ j → w'.p[j]? = w.p[j]?) := by
  refine forLoopM_preserves body
    (fun m t =>
      (∀ k, i ≤ k → k < m →
        t.n[k]? = some (X k) ∧
        ∃ vk, v[k]? = some vk ∧ t.p[k * 2]? = some vk ∧
          t.p[k * 2 + 1]? = some (vk.add ((X k).divS (Scalar.ofRat 8)))) ∧
      (∀ j, m ≤ j → t.n[j]? = w.n[j]?) ∧
      (∀ j, m * 2 ≤ j → t.p[j]? = w.p[j]?))
    n i w w' ⟨fun k h1 h2 => absurd h1 (by omega), fun _ _ => rfl, fun _ _ => rfl⟩ ?_ h
  intro m t t' hm hm' ⟨hdone, hn, hp⟩ hb
  rw [hbody] at hb
  obtain ⟨loc, hloc, hs⟩ := Option.bind_eq_some.mp hb
  obtain ⟨hin, hip, vm, hvm, rfl⟩ := (storeNormal_eq_some v m (val loc) _ t').mp hs
  simp only at hin hip
  rw [hX m _ _ hm hm' hloc]
  refine ⟨?_, ?_, ?_⟩
  · intro k hk hk'
    simp only
    by_cases hkm : k = m
    · subst hkm
      refine ⟨List.getElem?_set_self hin, vm, hvm, ?_, ?_⟩
      · rw [List.getElem?_set_ne (by omega)]
        exact List.getElem?_set_self (by omega)
      · exact List.getElem?_set_self (by rw [List.length_set]; exact hip)
    · obtain ⟨h1, vk, h2, h3, h4⟩ := hdone k hk (by omega)
      refine ⟨?_, vk, h2, ?_, ?_⟩
      · rw [List.getElem?_set_ne (by omega)]
        exact h1
      · rw [List.getElem?_set_ne (by omega), List.getElem?_set_ne (by omega)]
        exact h3
      · rw [List.getElem?_set_ne (by omega), List.getElem?_set_ne (by omega)]
        exact h4
  · intro j hj
    simp only
    rw [List.getElem?_set_ne (by omega)]
    exact hn j (by omega)
  · intro j hj
    simp only
    rw [List.getElem?_set_ne (by omega), List.getElem?_set_ne (by omega)]
    exact hp j (by omega)

theorem vertexAt_of_getElem? (v : List (vec3 F)) (j : Nat) (a : vec3 F)
    (h : v[j]? = some a) : vertexAt v j = a := by
  simp [vertexAt, List.getD_eq_getElem?_getD, h]

/-- The normal the ring loop of the fan computes for ring vertex `i` is the
negated average of the wedges adjacent to `i`. -/
theorem fanRingLocals_value (v : List (vec3 F)) (R : Nat) (b : Bool) (i : Nat)
    (loc loc' : Locals F) (hL : v.length = R + 1) (hi1 : 1 ≤ i) (hiR : i ≤ R)
    (h : fanRingLocals v b i loc = some loc') :
    loc'.sum.neg.divS (Scalar.ofRat (loc'.points : ℚ))
      = negatedAverage (adjacentWedges v R b i) := by
  have hu : usub v.length 1 = R := by
    rw [hL, usub_of_le _ _ (by omega)]
    omega
  have hprev : usub (if i = 1 then v.length else i) 1 = ringPrev R i := by
    unfold ringPrev
    split
    · rw [usub_of_le _ _ (by omega)]
      omega
    · rw [usub_of_le _ _ (by omega)]
  obtain ⟨vk, hvk⟩ := getElem?_some_of_lt v i (by omega)
  obtain ⟨v0, hv0⟩ := getElem?_some_of_lt v 0 (by omega)
  obtain ⟨vn, hvn⟩ := getElem?_some_of_lt v (ringNext R i)
    (by unfold ringNext; split <;> omega)
  obtain ⟨vp, hvp⟩ := getElem?_some_of_lt v (ringPrev R i)
    (by unfold ringPrev; split <;> omega)
  unfold fanRingLocals at h
  rw [hu, hprev] at h
  have hnext : (if i = R then 1 else i + 1) = ringNext R i := rfl
  simp only [hnext, wedge] at h
  simp only [hvk, hv0, hvn, hvp, Option.bind_eq_bind, Option.pure_def, Option.some_bind,
    pure, bind] at h
  unfold negatedAverage adjacentWedges nextWedge prevWedge
  rw [vertexAt_of_getElem? v i vk hvk, vertexAt_of_getElem? v 0 v0 hv0,
    vertexAt_of_getElem? v _ vn hvn, vertexAt_of_getElem? v _ vp hvp]
  cases b
  · simp only [Bool.and_false, Bool.not_false, Bool.or_true, if_true, Option.some_bind,
      Option.some.injEq] at h
    subst h
    simp
  · by_cases h1 : i = 1 <;> by_cases hR : i = R
    · subst h1
      subst hR
      simp at h ⊢
      subst h
      simp
    · subst h1
      have hR' : ¬ R = 1 := fun e => hR e.symm
      simp [hR, hR'] at h ⊢
      subst h
      simp
    · subst hR
      simp [h1] at h ⊢
      subst h
      simp
    · simp [h1, hR] at h ⊢
      subst h
      simp

/-- The normals of the ring vertices after `RecomputeNormals` on a fan with `R`
ring vertices: each is the negated average of its adjacent wedges. -/
theorem recomputeWork_fan_ring_values (b : Bool) (slices R : Nat) (v n p : List (vec3 F))
    (w : Work F) (hL : v.length = R + 1) (h : recomputeWork true b slices v n p = some w) :
    ∀ i, 1 ≤ i → i ≤ R →
      w.n[i]? = some (negatedAverage (adjacentWedges v R b i)) ∧
      ∃ vi, v[i]? = some vi ∧ w.p[i * 2]? = some vi ∧
        w.p[i * 2 + 1]?
          = some (vi.add ((negatedAverage (adjacentWedges v R b i)).divS (Scalar.ofRat 8))) := by
  unfold recomputeWork at h
  simp only [if_true, Option.bind_eq_bind, Option.bind_eq_some] at h
  obtain ⟨loc, -, w2, -, hl⟩ := h
  have hvals := (writeLoop_values v (fanRingLocals v b)
    (fun loc => loc.sum.neg.divS (Scalar.ofRat (loc.points : ℚ))) _ (fanRingBody_eq v b)
    (fun i => negatedAverage (adjacentWedges v R b i)) (v.length - 1) 1
    (fun k loc loc' hk hk' hloc =>
      fanRingLocals_value v R b k loc loc' hL hk (by omega) hloc)
    w2 w hl).1
  intro i hi1 hiR
  exact hvals i hi1 (by omega)

/-- C15: in fan recomputation with at least one slice and `E` ring vertices,
on the generated state and on every state reached from it by changing only
vertex positions, the routine returns and the normal of ring vertex `j`
(`1 ≤ j ≤ E`) is the negated average of its adjacent wedge normals; the number
of wedges averaged is 1 exactly when the span is partial and `j` is a seam
vertex (`j = 1` or `j = E`) and 2 otherwise; the next neighbour is `j + 1`,
wrapping `E` to 1, the previous one is `j - 1`, wrapping 1 to `E`, and no
wedge with a wrapped neighbour is averaged when the span is partial. -/
theorem fan_ring_normals (cs : ColorSource F) (slices : Int)
    (span outer_radius inner_radius : F) (d : Disc F) (vs : List (vec3 F))
    (h : Disc.construct slices span outer_radius inner_radius = Except.ok d)
    (hz : Scalar.eq inner_radius (Scalar.ofRat 0) = true)
    (hs : 1 ≤ d.slices)
    (hvs : vs.length = (Disc.PreGLInitialize cs d).1.data.vertices.length) :
    ∃ g', Disc.RecomputeNormals (setVertices (Disc.PreGLInitialize cs d).1 vs) = some g' ∧
      ∀ j, 1 ≤ j → j ≤ effectiveSampleCount d →
        g'.data.normals[j]?
          = some (negatedAverage (adjacentWedges vs (effectiveSampleCount d)
              d.is_partial_span j)) ∧
        (adjacentWedges vs (effectiveSampleCount d) d.is_partial_span j).length
          = (if d.is_partial_span = true ∧ (j = 1 ∨ j = effectiveSampleCount d)
              then 1 else 2) ∧
        (d.is_partial_span = true → j = 1 →
          adjacentWedges vs (effectiveSampleCount d) d.is_partial_span j
            = [nextWedge vs (effectiveSampleCount d) j] ∧
          ringNext (effectiveSampleCount d) j = j + 1) ∧
        (d.is_partial_span = true → j = effectiveSampleCount d →
          adjacentWedges vs (effectiveSampleCount d) d.is_partial_span j
            = [prevWedge vs (effectiveSampleCount d) j] ∧
          ringPrev (effectiveSampleCount d) j = j - 1) := by
  obtain ⟨-, -, -, hin, -, -, hd⟩ := construct_ok h
  have hfan : isFanTest d = true := by rw [isFanTest, hin]; exact hz
  have hsized := wellSized_generated cs d hd vs hvs
  obtain ⟨g', hg'⟩ := RecomputeNormals_total _ hsized
  refine ⟨g', hg', ?_⟩
  have hL : vs.length = effectiveSampleCount d + 1 := by
    rw [hvs, (PreGLInitialize_lengths cs d hd).1, vertexCount, hfan,
      real_number_of_slices_eq]
    simp [Nat.add_comm]
  have hE : d.is_partial_span = true → 2 ≤ effectiveSampleCount d := by
    intro hp
    simp only [effectiveSampleCount, hp, if_true]
    omega
  unfold Disc.RecomputeNormals at hg'
  obtain ⟨w, hw, rfl⟩ := Option.map_eq_some'.mp hg'
  have hfan' : Scalar.eq (setVertices (Disc.PreGLInitialize cs d).1 vs).inner_radius
      (Scalar.ofRat 0) = true := hfan
  rw [hfan'] at hw
  intro j hj1 hjE
  refine ⟨(recomputeWork_fan_ring_values _ _ _ vs _ _ w hL hw j hj1 hjE).1, ?_, ?_, ?_⟩
  · cases hp : d.is_partial_span
    · simp [adjacentWedges]
    · have hE2 := hE hp
      simp only [adjacentWedges, true_and]
      split_ifs <;> simp <;> omega
  · intro hp h1
    have hE2 := hE hp
    subst h1
    have hne : ¬ 1 = effectiveSampleCount d := by omega
    exact ⟨by simp [adjacentWedges, hp, hne], by simp [ringNext, hne]⟩
  · intro hp hR
    have hE2 := hE hp
    subst hR
    have hne : ¬ effectiveSampleCount d = 1 := by omega
    exact ⟨by simp [adjacentWedges, hp, hne], by simp [ringPrev, hne]⟩

/-- Witness of C15: the partial fan with 3 slices, span 1 and outer radius 2,
with its own vertices. -/
theorem fan_ring_normals_witness :
    ∃ d : Disc ℚ, Disc.construct 3 (1 : ℚ) 2 0 = Except.ok d ∧
    ∃ g', Disc.RecomputeNormals (setVertices (Disc.PreGLInitialize plainColor d).1
        (Disc.PreGLInitialize plainColor d).1.data.vertices) = some g' ∧
      ∀ j, 1 ≤ j → j ≤ effectiveSampleCount d →
        g'.data.normals[j]?
          = some (negatedAverage (adjacentWedges
              (Disc.PreGLInitialize plainColor d).1.data.vertices
              (effectiveSampleCount d) d.is_partial_span j)) ∧
        (adjacentWedges (Disc.PreGLInitialize plainColor d).1.data.vertices
            (effectiveSampleCount d) d.is_partial_span j).length
          = (if d.is_partial_span = true ∧ (j = 1 ∨ j = effectiveSampleCount d)
              then 1 else 2) ∧
        (d.is_partial_span = true → j = 1 →
          adjacentWedges (Disc.PreGLInitialize plainColor d).1.data.vertices
              (effectiveSampleCount d) d.is_partial_span j
            = [nextWedge (Disc.PreGLInitialize plainColor d).1.data.vertices
                (effectiveSampleCount d) j] ∧
          ringNext (effectiveSampleCount d) j = j + 1) ∧
        (d.is_partial_span = true → j = effectiveSampleCount d →
          adjacentWedges (Disc.PreGLInitialize plainColor d).1.data.vertices
              (effectiveSampleCount d) d.is_partial_span j
            = [prevWedge (Disc.PreGLInitialize plainColor d).1.data.vertices
                (effectiveSampleCount d) j] ∧
          ringPrev (effectiveSampleCount d) j = j - 1) :=
  ⟨_, construct_of_span_ne_zero 3 1 2 0 (by decide),
    fan_ring_normals plainColor 3 1 2 0 _ _
      (construct_of_span_ne_zero 3 1 2 0 (by decide)) (by decide) (by decide) rfl⟩

/-! ## The normal of the centre of a fan -/

/-- The sum the centre loop of the fan leaves in `sum`, for a fan with `R ≥ 2`
ring vertices: the wedges of the consecutive ring pairs `(k, k + 1)` for
`k = 1, ..., R - 1`, followed by the closing wedge `(R, 1)` when the span is
full and by the wedge of the last pair `(R - 1, R)` a second time when the
span is partial. -/
theorem fanCentre_sum (v : List (vec3 F)) (R : Nat) (b : Bool) (hL : v.length = R + 1)
    (hR : 2 ≤ R) :
    ∃ loc, forLoopM (fanCentreBody v b) 0 (usub v.length 1) Locals.init = some loc ∧
      loc.sum = (sumPairWedges v (R - 1)).add
        (if b then pairWedge v (R - 1) else closingWedge v R) := by
  have hu1 : usub v.length 1 = R := by
    rw [hL, usub_of_le _ _ (by omega)]
    omega
  have hu2 : usub v.length 2 = R - 1 := by
    rw [hL, usub_of_le _ _ (by omega)]
    omega
  rw [hu1]
  have key := forLoopM_total (fanCentreBody v b)
    (fun m loc =>
      (m ≤ R - 1 → loc.sum = sumPairWedges v m ∧
        (1 ≤ m → loc.A = (vertexAt v 0).sub (vertexAt v (m + 1)) ∧
          loc.B = (vertexAt v 0).sub (vertexAt v m))) ∧
      (m = R → loc.sum = (sumPairWedges v (R - 1)).add
        (if b then pairWedge v (R - 1) else closingWedge v R)))
    R 0 Locals.init
    ⟨fun _ => ⟨rfl, fun h => absurd h (by omega)⟩, fun h => absurd h (by omega)⟩
  obtain ⟨loc, hloc, hP⟩ := key (by
    intro m loc _ hm ⟨hlow, _⟩
    obtain ⟨hsum, hAB⟩ := hlow (by omega)
    obtain ⟨v0, hv0⟩ := getElem?_some_of_lt v 0 (by omega)
    obtain ⟨v1, hv1⟩ := getElem?_some_of_lt v 1 (by omega)
    obtain ⟨vm1, hvm1⟩ := getElem?_some_of_lt v (m + 1) (by omega)
    have e0 := vertexAt_of_getElem? v 0 v0 hv0
    have e1 := vertexAt_of_getElem? v 1 v1 hv1
    have em1 := vertexAt_of_getElem? v (m + 1) vm1 hvm1
    unfold fanCentreBody
    rw [hu2]
    by_cases hlast : m = R - 1
    · have hm1 : 1 ≤ m := by omega
      obtain ⟨hA, hB⟩ := hAB hm1
      obtain rfl : R = m + 1 := by omega
      simp only [Nat.add_sub_cancel, ne_eq, not_true_eq_false, if_false, ite_not]
      cases b
      · simp only [Bool.false_eq_true, if_false, hv0, hv1, hvm1, Option.bind_eq_bind,
          Option.some_bind, Option.pure_def, pure, bind]
        refine ⟨_, rfl, fun h => absurd h (by omega), fun _ => ?_⟩
        simp only [closingWedge, e0, e1, em1, hsum]
      · simp only [if_true, Option.bind_eq_bind, Option.some_bind, Option.pure_def, pure, bind]
        refine ⟨_, rfl, fun h => absurd h (by omega), fun _ => ?_⟩
        simp only [pairWedge, hsum, hA, hB]
    · obtain ⟨vm2, hvm2⟩ := getElem?_some_of_lt v (m + 2) (by omega)
      have em2 := vertexAt_of_getElem? v (m + 2) vm2 hvm2
      simp only [ne_eq, hlast, not_false_eq_true, if_true, hv0, hvm1, hvm2,
        Option.bind_eq_bind, Option.some_bind, Option.pure_def, pure, bind]
      refine ⟨_, rfl, fun _ => ⟨?_, fun _ => ⟨?_, ?_⟩⟩, fun h => absurd h (by omega)⟩
      · simp only [sumPairWedges, pairWedge, e0, em1, em2, hsum]
      · simp only [e0, em2]
      · simp only [e0, em1])
  exact ⟨loc, hloc, hP.2 (by omega)⟩

/-- The normal `RecomputeNormals` leaves at the centre of a fan with `R ≥ 2`
ring vertices: minus the sum of `fanCentre_sum`, divided by `R` when the span
is full and by `R - 1` when it is partial. -/
theorem recomputeWork_fan_centre_value (b : Bool) (slices R : Nat) (v n p : List (vec3 F))
    (w : Work F) (hL : v.length = R + 1) (hR : 2 ≤ R)
    (h : recomputeWork true b slices v n p = some w) :
    w.n[0]? = some ((((sumPairWedges v (R - 1)).add
        (if b then pairWedge v (R - 1) else closingWedge v R)).neg).divS
        (Scalar.ofRat (centreDivisor v b : ℚ))) ∧
    centreDivisor v b = (if b then R - 1 else R) := by
  obtain ⟨loc0, hloc0, hsum⟩ := fanCentre_sum v R b hL hR
  unfold recomputeWork at h
  simp only [if_true, Option.bind_eq_bind, Option.bind_eq_some] at h
  obtain ⟨loc, hloc, w2, hs, hl⟩ := h
  rw [hloc0] at hloc
  cases hloc
  obtain ⟨hin, -, v0, -, rfl⟩ := (storeNormal_eq_some v 0 _ _ w2).mp hs
  obtain ⟨-, -, hnj, -⟩ := writeLoop_frame v (fanRingLocals v b)
    (fun loc => loc.sum.neg.divS (Scalar.ofRat (loc.points : ℚ))) _ (fanRingBody_eq v b)
    _ _ _ _ hl
  constructor
  · rw [hnj 0 (by omega), ← hsum]
    exact List.getElem?_set_self hin
  · unfold centreDivisor
    rw [hL]
    cases b
    · rw [usub_of_le _ _ (by simp)]
      simp
    · rw [usub_of_le _ _ (by simp; omega)]
      simp

/-- C14, the code at a failing input: for the partial fan with 2 slices, span 1
and outer radius 2 (3 ring vertices), `RecomputeNormals` sets the centre normal
to minus the sum of three terms, the wedge of the ring pair `(1, 2)` and the
wedge of the ring pair `(2, 3)` twice, divided by 2. -/
theorem fan_centre_open_span_counts_last_wedge_twice :
    ∃ d : Disc ℚ, Disc.construct 2 (1 : ℚ) 2 0 = Except.ok d ∧
      d.is_partial_span = true ∧
      (Disc.PreGLInitialize plainColor d).1.data.vertices.length = 4 ∧
      centreDivisor (Disc.PreGLInitialize plainColor d).1.data.vertices d.is_partial_span = 2 ∧
      (Disc.RecomputeNormals (Disc.PreGLInitialize plainColor d).1).map
          (fun g' => g'.data.normals[0]?)
        = some (some ((((((vec3.zero : vec3 ℚ).add
            (pairWedge (Disc.PreGLInitialize plainColor d).1.data.vertices 1)).add
            (pairWedge (Disc.PreGLInitialize plainColor d).1.data.vertices 2)).add
            (pairWedge (Disc.PreGLInitialize plainColor d).1.data.vertices 2)).neg).divS
            (Scalar.ofRat 2))) :=
  ⟨_, construct_of_span_ne_zero 2 1 2 0 (by decide), by decide!, by decide!, by decide!,
    by decide!⟩

/-! ## The normals of a partial annulus -/

/-- The normal the loop of the partial annulus computes for outer vertex `i`. -/
theorem annulusLocals_value (v : List (vec3 F)) (slices i : Nat) (loc loc' : Locals F)
    (h : annulusLocals v slices i loc = some loc') :
    loc'.sum.neg.divS loc'.denominator = annulusNormal v slices i := by
  unfold annulusLocals at h
  unfold annulusNormal
  by_cases hi : i = 0
  · simp only [hi, if_true, Option.bind_eq_bind, Option.pure_def, pure, bind,
      Option.bind_eq_some, Option.some.injEq] at h ⊢
    obtain ⟨a, ha, a1, ha1, as, has, rfl⟩ := h
    simp only [Nat.zero_add] at has ha1
    simp only [Nat.zero_add, vertexAt_of_getElem? v 0 a ha, vertexAt_of_getElem? v 1 a1 ha1,
      vertexAt_of_getElem? v slices as has]
  · simp only [hi, if_false, Option.bind_eq_bind, Option.pure_def, pure, bind,
      Option.bind_eq_some, Option.some.injEq] at h ⊢
    obtain ⟨a, ha, as1, has1, am, ham, as, has, rfl⟩ := h
    simp only [vertexAt_of_getElem? v i a ha, vertexAt_of_getElem? v _ as1 has1,
      vertexAt_of_getElem? v _ am ham, vertexAt_of_getElem? v _ as has]

/-- What `RecomputeNormals` does to a partial annulus: it overwrites the normals
at the positions below `slices` and their visualization pairs, and leaves
every position from `slices` on (doubled, for the visualization coordinates)
as it was. -/
theorem recomputeWork_annulus_values (slices : Nat) (v n p : List (vec3 F)) (w : Work F)
    (h : recomputeWork false true slices v n p = some w) :
    (∀ i, i < slices →
      w.n[i]? = some (annulusNormal v slices i) ∧
      ∃ vi, v[i]? = some vi ∧ w.p[i * 2]? = some vi ∧
        w.p[i * 2 + 1]? = some (vi.add ((annulusNormal v slices i).divS (Scalar.ofRat 8)))) ∧
    (∀ j, slices ≤ j → w.n[j]? = n[j]?) ∧
    (∀ j, slices * 2 ≤ j → w.p[j]? = p[j]?) := by
  unfold recomputeWork at h
  simp only [Bool.false_eq_true, if_false] at h
  obtain ⟨h1, h2, h3⟩ := writeLoop_values v (annulusLocals v slices)
    (fun loc => loc.sum.neg.divS loc.denominator) _ (annulusBody_eq v slices)
    (fun i => annulusNormal v slices i) slices 0
    (fun k loc loc' _ _ hloc => annulusLocals_value v slices k loc loc' hloc)
    _ w h
  refine ⟨fun i hi => h1 i (Nat.zero_le _) (by omega), ?_, ?_⟩
  · intro j hj
    exact h2 j (by omega)
  · intro j hj
    exact h3 j (by omega)

/-- C16, the code at a failing input: for the partial annulus with 2 slices,
span 1 and radii 2 and 1 (`E = 3`, so the inner vertex of outer vertex 0 is
`v[3]`), `RecomputeNormals` sets `normals[0]` to
`-normalize(cross(normalize(v[2] - -v[0]), normalize(v[1] - v[0]))) / 1`, built
from the outer vertex `v[2]` and from the sum `v[2] + v[0]`, and this differs
from `-normalize(cross(normalize(v[3] - v[0]), normalize(v[1] - v[0])))`. -/
theorem annulus_seam_normal_uses_outer_vertex :
    ∃ d : Disc ℚ, Disc.construct 2 (1 : ℚ) 2 1 = Except.ok d ∧
      d.is_partial_span = true ∧ effectiveSampleCount d = 3 ∧
      (Disc.RecomputeNormals (Disc.PreGLInitialize plainColor d).1).map
          (fun g' => g'.data.normals[0]?)
        = some (some (((normalize (cross
            (normalize ((vertexAt (Disc.PreGLInitialize plainColor d).1.data.vertices 2).sub
              (vertexAt (Disc.PreGLInitialize plainColor d).1.data.vertices 0).neg))
            (normalize ((vertexAt (Disc.PreGLInitialize plainColor d).1.data.vertices 1).sub
              (vertexAt (Disc.PreGLInitialize plainColor d).1.data.vertices 0))))).neg).divS
            (Scalar.ofRat 1))) ∧
      (Disc.RecomputeNormals (Disc.PreGLInitialize plainColor d).1).map
          (fun g' => g'.data.normals[0]?)
        ≠ some (some (claimedSeamNormal (Disc.PreGLInitialize plainColor d).1.data.vertices 3)) :=
  ⟨_, construct_of_span_ne_zero 2 1 2 1 (by decide), by decide!, by decide!, by decide!,
    by decide!⟩

/-- C17, the code at a failing input: for the partial annulus with 2 slices,
span 1 and radii 2 and 1 (`E = 3`, outer ring at indices 0, 1, 2),
`RecomputeNormals` overwrites the normals at indices 0 and 1 only; the normal
of the outer-ring vertex at index 2 and its visualization pair at 4 and 5 are
left as generation set them. -/
theorem annulus_last_outer_normal_not_written :
    ∃ d : Disc ℚ, Disc.construct 2 (1 : ℚ) 2 1 = Except.ok d ∧
      d.is_partial_span = true ∧ effectiveSampleCount d = 3 ∧
      (Disc.RecomputeNormals (Disc.PreGLInitialize plainColor d).1).map
          (fun g' => (g'.data.normals[0]?, g'.data.normals[1]?, g'.data.normals[2]?))
        = some (some (annulusNormal (Disc.PreGLInitialize plainColor d).1.data.vertices 2 0),
            some (annulusNormal (Disc.PreGLInitialize plainColor d).1.data.vertices 2 1),
            (Disc.PreGLInitialize plainColor d).1.data.normals[2]?) ∧
      (Disc.PreGLInitialize plainColor d).1.data.normals[2]? = some ⟨0, 0, 1⟩ ∧
      (Disc.RecomputeNormals (Disc.PreGLInitialize plainColor d).1).map
          (fun g' => (g'.data.normal_visualization_coordinates[4]?,
            g'.data.normal_visualization_coordinates[5]?))
        = some ((Disc.PreGLInitialize plainColor d).1.data.normal_visualization_coordinates[4]?,
            (Disc.PreGLInitialize plainColor d).1.data.normal_visualization_coordinates[5]?) :=
  ⟨_, construct_of_span_ne_zero 2 1 2 1 (by decide), by decide!, by decide!, by decide!,
    by decide!, by decide!⟩

/-! ## Texture coordinates of the inner ring -/

/-- C18, the code at a failing input: for the annulus with 2 slices, span 1 and
radii 2 and 1 the inner-ring vertex at index 4 is `(7/8, 23/48, 0)` and its
texture coordinate is `(1, 1/2)`, the value built from the unrotated point
`(inner_radius, 0)` that every inner-ring vertex gets, not its position divided
by `2 * inner_radius` plus `(0.5, 0.5)`, which is `(15/16, 71/96)`; the
outer-ring vertex at index 1 does get its position divided by
`2 * outer_radius` plus `(0.5, 0.5)`. -/
theorem inner_ring_texture_ignores_position :
    ∃ d : Disc ℚ, Disc.construct 2 (1 : ℚ) 2 1 = Except.ok d ∧
      (Disc.PreGLInitialize plainColor d).1.is_fan = false ∧
      effectiveSampleCount d = 3 ∧
      (Disc.PreGLInitialize plainColor d).1.data.vertices[4]? = some ⟨7 / 8, 23 / 48, 0⟩ ∧
      (Disc.PreGLInitialize plainColor d).1.data.textures[4]? = some ⟨1, 1 / 2⟩ ∧
      (Disc.PreGLInitialize plainColor d).1.data.textures[3]? = some ⟨1, 1 / 2⟩ ∧
      (Disc.PreGLInitialize plainColor d).1.data.textures[5]? = some ⟨1, 1 / 2⟩ ∧
      (((⟨7 / 8, 23 / 48, 0⟩ : vec3 ℚ).toVec2.divS (d.inner_radius * Scalar.ofRat 2)).add half2)
        = ⟨15 / 16, 71 / 96⟩ ∧
      (Disc.PreGLInitialize plainColor d).1.data.textures[1]?
        = some (((vertexAt (Disc.PreGLInitialize plainColor d).1.data.vertices 1).toVec2.divS
            (d.outer_radius * Scalar.ofRat 2)).add half2) :=
  ⟨_, construct_of_span_ne_zero 2 1 2 1 (by decide), by decide!, by decide!, by decide!,
    by decide!, by decide!, by decide!, by decide!, by decide!⟩

/-! ## Validity of the subscripts -/

/-- C19: for every disc generated with at least one slice, fan or annulus,
partial or full span, every entry of the index list is strictly less than the
number of generated vertices. -/
theorem indices_reference_vertices (cs : ColorSource F) (slices : Int)
    (span outer_radius inner_radius : F) (d : Disc F)
    (h : Disc.construct slices span outer_radius inner_radius = Except.ok d)
    (hs : 1 ≤ d.slices) :
    ∀ x, x ∈ (Disc.PreGLInitialize cs d).1.data.indices →
      x < (Disc.PreGLInitialize cs d).1.data.vertices.length := by
  obtain ⟨-, -, -, -, -, -, hd⟩ := construct_ok h
  have hN : d.slices ≤ real_number_of_slices d := by
    unfold real_number_of_slices
    omega
  rw [(PreGLInitialize_lengths cs d hd).1, vertexCount]
  cases hfan : isFanTest d
  · rw [(PreGLInitialize_annulus cs d hd hfan).2.2.2.2.1]
    simp only [Bool.false_eq_true, if_false]
    intro x hx
    obtain ⟨k, hk, hxk⟩ := List.mem_flatMap.mp hx
    have hk' : k < d.slices := List.mem_range.mp hk
    have hmod : (k + 1) % real_number_of_slices d < real_number_of_slices d :=
      Nat.mod_lt _ (by omega)
    simp only [sliceTriangles, List.mem_cons, List.mem_singleton, List.not_mem_nil,
      or_false] at hxk
    rcases hxk with rfl | rfl | rfl | rfl | rfl | rfl <;> omega
  · rw [(PreGLInitialize_fan cs d hd hfan).2.2.2.2.1]
    simp only [if_true]
    intro x hx
    rcases List.mem_append.mp hx with hx | hx
    · have := List.mem_range.mp hx
      omega
    · cases hp : d.is_partial_span
      · rw [hp] at hx
        simp only [Bool.false_eq_true, if_false, List.mem_singleton] at hx
        omega
      · rw [hp] at hx
        simp at hx

/-- Witness of C19: the annulus with 3 slices, a full span and radii 2 and 1. -/
theorem indices_reference_vertices_witness :
    ∃ d : Disc ℚ, Disc.construct 3 (full_span : ℚ) 2 1 = Except.ok d ∧
      ∀ x, x ∈ (Disc.PreGLInitialize plainColor d).1.data.indices →
        x < (Disc.PreGLInitialize plainColor d).1.data.vertices.length :=
  ⟨_, construct_of_span_ne_zero 3 full_span 2 1 (by decide!),
    indices_reference_vertices plainColor 3 full_span 2 1 _
      (construct_of_span_ne_zero 3 full_span 2 1 (by decide!)) (by decide)⟩

/-- C20: for every disc state produced by generation, with any slice count
including 0, fan or annulus, partial or full span, and for every state reached
from it by changing only vertex positions, `RecomputeNormals` does not return
`none`: every subscript of the vertices, the normals and the normal
visualization coordinates that it reads or writes is inside its vector. -/
theorem recompute_subscripts_in_range (cs : ColorSource F) (slices : Int)
    (span outer_radius inner_radius : F) (d : Disc F) (vs : List (vec3 F))
    (h : Disc.construct slices span outer_radius inner_radius = Except.ok d)
    (hvs : vs.length = (Disc.PreGLInitialize cs d).1.data.vertices.length) :
    Disc.RecomputeNormals (Disc.PreGLInitialize cs d).1 ≠ none ∧
    Disc.RecomputeNormals (setVertices (Disc.PreGLInitialize cs d).1 vs) ≠ none := by
  obtain ⟨-, -, -, -, -, -, hd⟩ := construct_ok h
  constructor
  · obtain ⟨g', hg'⟩ := RecomputeNormals_total _
      (wellSized_generated cs d hd (Disc.PreGLInitialize cs d).1.data.vertices rfl)
    intro hnone
    have hsame : setVertices (Disc.PreGLInitialize cs d).1
        (Disc.PreGLInitialize cs d).1.data.vertices = (Disc.PreGLInitialize cs d).1 := rfl
    rw [hsame, hnone] at hg'
    cases hg'
  · obtain ⟨g', hg'⟩ := RecomputeNormals_total _ (wellSized_generated cs d hd vs hvs)
    rw [hg']
    exact Option.some_ne_none g'

/-- Witness of C20: the fan with no slice, span 1 and outer radius 2, with its
own vertices. -/
theorem recompute_subscripts_in_range_witness :
    ∃ d : Disc ℚ, Disc.construct 0 (1 : ℚ) 2 0 = Except.ok d ∧
      Disc.RecomputeNormals (Disc.PreGLInitialize plainColor d).1 ≠ none ∧
      Disc.RecomputeNormals (setVertices (Disc.PreGLInitialize plainColor d).1
        (Disc.PreGLInitialize plainColor d).1.data.vertices) ≠ none :=
  ⟨_, construct_of_span_ne_zero 0 1 2 0 (by decide),
    recompute_subscripts_in_range plainColor 0 1 2 0 _ _
      (construct_of_span_ne_zero 0 1 2 0 (by decide)) rfl⟩

/-! ## What the output of `RecomputeNormals` depends on -/

/-- A state that keeps the normals and visualization coordinates of `g` is the
state after an edit of the vertex positions. -/
theorem setBuffers_generated (g : Disc F) (vs : List (vec3 F)) :
    setBuffers g vs g.data.normals g.data.normal_visualization_coordinates
      = setVertices g vs := rfl

/-- A generated state whose vertices, normals and visualization coordinates are
replaced by vectors of the generated sizes has the sizes of a generated one. -/
theorem wellSized_setBuffers (cs : ColorSource F) (d : Disc F) (hd : d.data = Data.empty)
    (vs n p : List (vec3 F))
    (hvs : vs.length = (Disc.PreGLInitialize cs d).1.data.vertices.length)
    (hn : n.length = vs.length) (hp : p.length = 2 * vs.length) :
    WellSized (setBuffers (Disc.PreGLInitialize cs d).1 vs n p) := by
  obtain ⟨hv, -, -, -⟩ := PreGLInitialize_lengths cs d hd
  refine ⟨?_, hn, hp⟩
  show vs.length = _
  rw [hvs, hv]
  rfl

/-- Every entry of the vectors a fan recomputation produces, in terms of the
vertices alone: the centre from the locals of the first loop, the ring
vertices from their adjacent wedges. -/
theorem recomputeWork_fan_entries (b : Bool) (slices : Nat) (v n p : List (vec3 F))
    (w : Work F) (hn : n.length = v.length) (hp : p.length = 2 * v.length)
    (h : recomputeWork true b slices v n p = some w) :
    ∃ loc v0, forLoopM (fanCentreBody v b) 0 (usub v.length 1) Locals.init = some loc ∧
      v[0]? = some v0 ∧ w.n.length = v.length ∧ w.p.length = 2 * v.length ∧
      w.n[0]? = some (loc.sum.neg.divS (Scalar.ofRat (centreDivisor v b : ℚ))) ∧
      w.p[0]? = some v0 ∧
      w.p[1]? = some (v0.add ((loc.sum.neg.divS (Scalar.ofRat (centreDivisor v b : ℚ))).divS
        (Scalar.ofRat 8))) ∧
      ∀ k, 1 ≤ k → k < v.length →
        w.n[k]? = some (negatedAverage (adjacentWedges v (v.length - 1) b k)) ∧
        ∃ vk, v[k]? = some vk ∧ w.p[k * 2]? = some vk ∧
          w.p[k * 2 + 1]? = some (vk.add
            ((negatedAverage (adjacentWedges v (v.length - 1) b k)).divS (Scalar.ofRat 8))) := by
  obtain ⟨hwn, hwp⟩ := recomputeWork_lengths _ _ _ _ _ _ w h
  unfold recomputeWork at h
  simp only [if_true, Option.bind_eq_bind, Option.bind_eq_some] at h
  obtain ⟨loc, hloc, w2, hs, hl⟩ := h
  obtain ⟨hin, hip, v0, hv0, rfl⟩ := (storeNormal_eq_some v 0 _ _ w2).mp hs
  have hvpos : 0 < v.length := by
    rcases Nat.eq_zero_or_pos v.length with h0 | h0
    · rw [List.length_eq_zero] at h0
      subst h0
      simp at hv0
    · exact h0
  have hL : v.length = (v.length - 1) + 1 := by omega
  obtain ⟨-, -, hnj, hpj⟩ := writeLoop_frame v (fanRingLocals v b)
    (fun loc => loc.sum.neg.divS (Scalar.ofRat (loc.points : ℚ))) _ (fanRingBody_eq v b)
    _ _ _ _ hl
  have hvals := (writeLoop_values v (fanRingLocals v b)
    (fun loc => loc.sum.neg.divS (Scalar.ofRat (loc.points : ℚ))) _ (fanRingBody_eq v b)
    (fun i => negatedAverage (adjacentWedges v (v.length - 1) b i)) (v.length - 1) 1
    (fun k loc loc' hk hk' hloc =>
      fanRingLocals_value v (v.length - 1) b k loc loc' hL hk (by omega) hloc)
    _ w hl).1
  have hin' : 0 < n.length := hin
  have hip' : 0 * 2 + 1 < p.length := hip
  refine ⟨loc, v0, hloc, hv0, by rw [hwn, hn], by rw [hwp, hp], ?_, ?_, ?_, ?_⟩
  · rw [hnj 0 (by omega)]
    exact List.getElem?_set_self hin'
  · rw [hpj 0 (by omega), List.getElem?_set_ne (by omega)]
    exact List.getElem?_set_self (by omega)
  · rw [hpj 1 (by omega)]
    exact List.getElem?_set_self (by rw [List.length_set]; omega)
  · intro k hk1 hk
    exact hvals k hk1 (by omega)

/-- For a fan the vectors `RecomputeNormals` produces are the same whatever the
vectors `n` and `p` of the generated sizes it starts from. -/
theorem recomputeWork_fan_independent (b : Bool) (slices : Nat)
    (v n1 p1 n2 p2 : List (vec3 F)) (w1 w2 : Work F)
    (hn1 : n1.length = v.length) (hp1 : p1.length = 2 * v.length)
    (hn2 : n2.length = v.length) (hp2 : p2.length = 2 * v.length)
    (h1 : recomputeWork true b slices v n1 p1 = some w1)
    (h2 : recomputeWork true b slices v n2 p2 = some w2) :
    w1.n = w2.n ∧ w1.p = w2.p := by
  obtain ⟨loc, v0, hloc, hv0, hl1, hq1, hc1, ha1, hb1, hr1⟩ :=
    recomputeWork_fan_entries b slices v n1 p1 w1 hn1 hp1 h1
  obtain ⟨loc', v0', hloc', hv0', hl2, hq2, hc2, ha2, hb2, hr2⟩ :=
    recomputeWork_fan_entries b slices v n2 p2 w2 hn2 hp2 h2
  rw [hloc] at hloc'
  cases hloc'
  rw [hv0] at hv0'
  cases hv0'
  constructor
  · apply List.ext_getElem?
    intro j
    rcases Nat.lt_or_ge j v.length with hj | hj
    · rcases Nat.eq_zero_or_pos j with h0 | h0
      · subst h0
        rw [hc1, hc2]
      · rw [(hr1 j h0 hj).1, (hr2 j h0 hj).1]
    · rw [List.getElem?_eq_none (by omega), List.getElem?_eq_none (by omega)]
  · apply List.ext_getElem?
    intro j
    rcases Nat.lt_or_ge j (2 * v.length) with hj | hj
    · rcases Nat.lt_or_ge j 2 with h2 | h2
      · rcases Nat.eq_zero_or_pos j with h0 | h0
        · subst h0
          rw [ha1, ha2]
        · have hj1 : j = 1 := by omega
          subst hj1
          rw [hb1, hb2]
      · obtain ⟨-, vk, hvk, he1, ho1⟩ := hr1 (j / 2) (by omega) (by omega)
        obtain ⟨-, vk', hvk', he2, ho2⟩ := hr2 (j / 2) (by omega) (by omega)
        rw [hvk] at hvk'
        cases hvk'
        rcases Nat.mod_two_eq_zero_or_one j with hm | hm
        · have hj2 : j = j / 2 * 2 := by omega
          rw [hj2, he1, he2]
        · have hj2 : j = j / 2 * 2 + 1 := by omega
          rw [hj2, ho1, ho2]
    · rw [List.getElem?_eq_none (by omega), List.getElem?_eq_none (by omega)]

